import Mathlib

/-! PINMUX / PINPAD driver (`Driver_PINMUX_AND_PINPAD.c`)

A shallow embedding of the four register-access functions of the driver
(`PINMUX_Config`, `PINMUX_read`, `PINPAD_Config`, `PINPAD_read`) together with
theorems about their validation, addressing and read/write behaviour.

Modelling conventions.

* `uint8_t`/`uint32_t` values are natural numbers; where the C arithmetic can
  wrap the reduction modulo `2^8` / `2^32` is written out.
* `int` values (the promoted operands of `<<` and `~`) are integers; a left
  shift of an `int` is reduced to the signed 32-bit range (two's complement
  wrap-around, which is what the compilers for this target produce when
  `0xF << 28` exceeds `INT_MAX`).
* The multiplex region is a map from byte addresses to 32-bit register values;
  the pad region is the `Pad_RegInfo` structure.  The two regions are
  disjoint, and in `PINMUX_read` and `PINPAD_read` the caller's output
  location lies outside both.
* A `NULL` output pointer is `none`; a valid pointer to a location currently
  holding `x` is `some x`.
* `PINMUX_read_mem` and `PINPAD_read_mem` are the two read functions with the
  output pointer as an `OutPtr`, which may also be the address of a multiplex
  register; on a pointer outside the register memory they agree with
  `PINMUX_read` and `PINPAD_read`.
-/

namespace PinCtl

/-! ## Constants of `PINMUX_AND_PINPAD_Internal.h` -/

/-- Execution status returned by the driver functions (`DRIVER_OK` /
`DRIVER_ERROR`); only the fact that the two codes differ is used. -/
inductive Status where
  | DRIVER_OK
  | DRIVER_ERROR
  deriving DecidableEq, Repr

open Status

/-- Modelled from the spec: header constant, ports of the pad region are numbered from 1. -/
def PORT_NUMBER_1 : Nat := 1

/-- Modelled from the spec: header constant. -/
def PORT_NUMBER_2 : Nat := 2

/-- Modelled from the spec: header constant, the largest multiplex port (ports 0..3). -/
def PORT_NUMBER_3 : Nat := 3

/-- Modelled from the spec: header constant, the largest pad port. -/
def PORT_NUMBER_4 : Nat := 4

/-- Modelled from the spec: header constant, the largest pin number. -/
def PIN_NUMBER_31 : Nat := 31

/-- Modelled from the spec: header constant, the largest alternate-function selector. -/
def PINMUX_ALTERNATE_FUNCTION_7 : Nat := 7

/-- Modelled from the spec: header constant, port 3 has pins 0..23. -/
def PORT3_MAX_PIN_NUMBER : Nat := 24

/-- Modelled from the spec: header constant, port 4 has pins 0..7. -/
def PORT4_MAX_PIN_NUMBER : Nat := 8

/-! ## Register memory -/

/-- One bank of `n` pad-control entries (`port_k[n]`), each entry holding the
value of its `pad` field.  The field is at least a byte wide (the pad-function
byte of the spec), so storing a `uint8_t` and loading into a `uint32_t` keep
the value. -/
def Bank (n : Nat) : Type := Fin n → Nat

/-- Indexed load `bank[i].pad`; `none` when `i` is outside the array. -/
def Bank.read {n : Nat} (b : Bank n) (i : Nat) : Option Nat :=
  if h : i < n then some (b ⟨i, h⟩) else none

/-- Indexed store `bank[i].pad = v`; `none` when `i` is outside the array. -/
def Bank.write {n : Nat} (b : Bank n) (i : Nat) (v : Nat) : Option (Bank n) :=
  if h : i < n then some (Function.update b ⟨i, h⟩ v) else none

/-- Modelled from the spec: the `Pad_RegInfo` register structure of the header,
one bank per port 1..4 with 32, 32, 24 and 8 entries. -/
structure Pad_RegInfo where
  port_1 : Bank 32
  port_2 : Bank 32
  port_3 : Bank 24
  port_4 : Bank 8

/-- The hardware state the driver touches: the multiplex registers, keyed by
byte address, and the pad-control region. -/
structure Hw where
  mux : Nat → Nat
  pad : Pad_RegInfo

/-- The load `*ptr` of a multiplex register. -/
def Hw.load (hw : Hw) (ptr : Nat) : Nat := hw.mux ptr

/-- The store `*ptr = v` to a multiplex register. -/
def Hw.store (hw : Hw) (ptr : Nat) (v : Nat) : Hw :=
  { hw with mux := Function.update hw.mux ptr v }

/-- Outcome of a configure call: the status and the hardware state after it. -/
structure CfgResult where
  status : Status
  hw : Hw

/-- Outcome of a read call: the status, the hardware state after it and the
content of the caller's output location (`none` for a `NULL` pointer). -/
structure ReadResult where
  status : Status
  hw : Hw
  out : Option Nat

/-! ## C integer operations -/

/-- Reduction of an integer to the signed 32-bit range. -/
def wrap_int32 (x : Int) : Int := (x + 2 ^ 31) % 2 ^ 32 - 2 ^ 31

/-- The C expression `a << s` on an `int` left operand. -/
def shl_int (a : Int) (s : Nat) : Int := wrap_int32 (a * 2 ^ s)

/-- The C expression `~a` on an `int`. -/
def not_int (a : Int) : Int := -a - 1

/-- Conversion of an `int` to `uint32_t`. -/
def to_uint32 (x : Int) : Nat := (x % 2 ^ 32).toNat

/-! ## The driver functions -/

/-- Lines 59-82 of `PINMUX_Config`: the register pointer and the bit offset
selected for `(port, pin_no)`. -/
def PINMUX_Config_select (PINMUX_BASE port pin_no : Nat) : Nat × Nat :=
  let port := (port * 16 + 16) % 256
  let sel : Nat × Nat :=
    if pin_no ≥ 24 then (PINMUX_BASE + port + 0x0C, pin_no - 24)
    else if pin_no ≥ 16 then (PINMUX_BASE + port + 0x08, pin_no - 16)
    else if pin_no ≥ 8 then (PINMUX_BASE + port + 0x04, pin_no - 8)
    else (PINMUX_BASE + port, pin_no)
  (sel.1, (sel.2 * 4) % 2 ^ 32)

/-- The function `PINMUX_Config (port, pin_no, AF_number)`. -/
def PINMUX_Config (PINMUX_BASE : Nat) (hw : Hw) (port pin_no AF_number : Nat) : CfgResult :=
  if port > PORT_NUMBER_3 then ⟨DRIVER_ERROR, hw⟩
  else if pin_no > PIN_NUMBER_31 then ⟨DRIVER_ERROR, hw⟩
  else if AF_number > PINMUX_ALTERNATE_FUNCTION_7 then ⟨DRIVER_ERROR, hw⟩
  else
    let ptr := (PINMUX_Config_select PINMUX_BASE port pin_no).1
    let value := (PINMUX_Config_select PINMUX_BASE port pin_no).2
    -- *ptr &= ~(0xF << value);
    let hw1 := hw.store ptr (hw.load ptr &&& to_uint32 (not_int (shl_int 0xF value)))
    -- *ptr |= (AF_number << value);
    let hw2 := hw1.store ptr (hw1.load ptr ||| to_uint32 (shl_int AF_number value))
    ⟨DRIVER_OK, hw2⟩

/-- Lines 106-129 of `PINMUX_read`: the register pointer and the bit offset
selected for `(port, pin_no)`. -/
def PINMUX_read_select (PINMUX_BASE port pin_no : Nat) : Nat × Nat :=
  let port := (port * 16 + 16) % 256
  let sel : Nat × Nat :=
    if pin_no ≥ 24 then (PINMUX_BASE + port + 0x0C, pin_no - 24)
    else if pin_no ≥ 16 then (PINMUX_BASE + port + 0x08, pin_no - 16)
    else if pin_no ≥ 8 then (PINMUX_BASE + port + 0x04, pin_no - 8)
    else (PINMUX_BASE + port, pin_no)
  (sel.1, (sel.2 * 4) % 2 ^ 32)

/-- The function `PINMUX_read (port, pin_no, AF_number)`; `AF_number` is the
output pointer. -/
def PINMUX_read (PINMUX_BASE : Nat) (hw : Hw) (port pin_no : Nat) (AF_number : Option Nat) :
    ReadResult :=
  if port > PORT_NUMBER_3 then ⟨DRIVER_ERROR, hw, AF_number⟩
  else if pin_no > PIN_NUMBER_31 then ⟨DRIVER_ERROR, hw, AF_number⟩
  else
    match AF_number with
    | none => ⟨DRIVER_ERROR, hw, none⟩
    | some _ =>
      let ptr := (PINMUX_read_select PINMUX_BASE port pin_no).1
      let value := (PINMUX_read_select PINMUX_BASE port pin_no).2
      -- *AF_number = (((*ptr) >> value) & 0xF);
      ⟨DRIVER_OK, hw, some ((hw.load ptr >>> value) &&& 0xF)⟩

/-- The function `PINPAD_Config (port, pin_no, function)`.  The result is
`none` exactly when an access outside a bank array would be made. -/
def PINPAD_Config (hw : Hw) (port pin_no function : Nat) : Option CfgResult :=
  if port > PORT_NUMBER_4 then some ⟨DRIVER_ERROR, hw⟩
  else if pin_no > PIN_NUMBER_31 then some ⟨DRIVER_ERROR, hw⟩
  else if port = PORT_NUMBER_1 then
    (hw.pad.port_1.write pin_no function).map
      fun b => ⟨DRIVER_OK, { hw with pad := { hw.pad with port_1 := b } }⟩
  else if port = PORT_NUMBER_2 then
    (hw.pad.port_2.write pin_no function).map
      fun b => ⟨DRIVER_OK, { hw with pad := { hw.pad with port_2 := b } }⟩
  else if port = PORT_NUMBER_3 then
    if pin_no ≥ PORT3_MAX_PIN_NUMBER then some ⟨DRIVER_ERROR, hw⟩
    else
      (hw.pad.port_3.write pin_no function).map
        fun b => ⟨DRIVER_OK, { hw with pad := { hw.pad with port_3 := b } }⟩
  else if port = PORT_NUMBER_4 then
    if pin_no ≥ PORT4_MAX_PIN_NUMBER then some ⟨DRIVER_ERROR, hw⟩
    else
      (hw.pad.port_4.write pin_no function).map
        fun b => ⟨DRIVER_OK, { hw with pad := { hw.pad with port_4 := b } }⟩
  else some ⟨DRIVER_OK, hw⟩

/-- The function `PINPAD_read (port, pin_no, function)`; `function` is the
output pointer.  The result is `none` exactly when an access outside a bank
array would be made. -/
def PINPAD_read (hw : Hw) (port pin_no : Nat) (function : Option Nat) : Option ReadResult :=
  if port > PORT_NUMBER_4 then some ⟨DRIVER_ERROR, hw, function⟩
  else if pin_no > PIN_NUMBER_31 then some ⟨DRIVER_ERROR, hw, function⟩
  else
    match function with
    | none => some ⟨DRIVER_ERROR, hw, none⟩
    | some old =>
      if port = PORT_NUMBER_1 then
        (hw.pad.port_1.read pin_no).map fun x => ⟨DRIVER_OK, hw, some x⟩
      else if port = PORT_NUMBER_2 then
        (hw.pad.port_2.read pin_no).map fun x => ⟨DRIVER_OK, hw, some x⟩
      else if port = PORT_NUMBER_3 then
        if pin_no ≥ PORT3_MAX_PIN_NUMBER then some ⟨DRIVER_ERROR, hw, some old⟩
        else (hw.pad.port_3.read pin_no).map fun x => ⟨DRIVER_OK, hw, some x⟩
      else if port = PORT_NUMBER_4 then
        if pin_no ≥ PORT4_MAX_PIN_NUMBER then some ⟨DRIVER_ERROR, hw, some old⟩
        else (hw.pad.port_4.read pin_no).map fun x => ⟨DRIVER_OK, hw, some x⟩
      else some ⟨DRIVER_OK, hw, some old⟩

/-! ## The addressing rule of the specification -/

/-- The multiplex addressing rule in the words of the specification: the
register of pin `n` of port `p` is at `base + (p*16 + 16) + 4*(n div 8)` and
the field starts at bit `(n mod 8) * 4`. -/
def mux_address_rule (PINMUX_BASE p n : Nat) : Nat × Nat :=
  (PINMUX_BASE + (p * 16 + 16) + 4 * (n / 8), (n % 8) * 4)

/-- The pad entry of pin `pin_no` in the bank of `port`, for the ports that
have a bank (1..4); `none` for any other port or a pin outside the bank. -/
def pad_entry (hw : Hw) (port pin_no : Nat) : Option Nat :=
  if port = 1 then hw.pad.port_1.read pin_no
  else if port = 2 then hw.pad.port_2.read pin_no
  else if port = 3 then hw.pad.port_3.read pin_no
  else if port = 4 then hw.pad.port_4.read pin_no
  else none

/-- The coordinates the pad operations support: ports 1 and 2 with pins 0..31,
port 3 with pins 0..23, port 4 with pins 0..7. -/
def pad_supported (port pin_no : Nat) : Prop :=
  ((port = 1 ∨ port = 2) ∧ pin_no ≤ 31) ∨ (port = 3 ∧ pin_no ≤ 23) ∨ (port = 4 ∧ pin_no ≤ 7)

instance (port pin_no : Nat) : Decidable (pad_supported port pin_no) := by
  unfold pad_supported; infer_instance

/-- A hardware state with every register cleared, used for concrete evaluations. -/
def hw_zero : Hw :=
  { mux := fun _ => 0
    pad := { port_1 := fun _ => 0, port_2 := fun _ => 0, port_3 := fun _ => 0, port_4 := fun _ => 0 } }

/-- A hardware state with every bit of every register set. -/
def hw_ones : Hw :=
  { mux := fun _ => 0xFFFFFFFF
    pad := { port_1 := fun _ => 0xFF, port_2 := fun _ => 0xFF, port_3 := fun _ => 0xFF,
             port_4 := fun _ => 0xFF } }

/-! ## Reads through a pointer that may point at a register -/

/-- The output pointer of a read function: `NULL`, the address of a multiplex
register, or a location outside the register memory together with the value it
currently holds. -/
inductive OutPtr where
  | null
  | reg (addr : Nat)
  | ext (content : Nat)
  deriving DecidableEq, Repr

/-- Whether the pointer points into the multiplex register memory. -/
def OutPtr.in_registers : OutPtr → Bool
  | OutPtr.reg _ => true
  | _ => false

/-- The pointer for an output location given as in `PINMUX_read`: `none` is
`NULL`, `some x` a location outside the register memory holding `x`. -/
def OutPtr.ofOption : Option Nat → OutPtr
  | none => OutPtr.null
  | some x => OutPtr.ext x

/-- The value a non-null pointer points at. -/
def OutPtr.content (hw : Hw) : OutPtr → Option Nat
  | OutPtr.null => none
  | OutPtr.reg a => some (hw.mux a)
  | OutPtr.ext x => some x

/-- The store `*ptr = v` through an output pointer: into the register memory
when the pointer is a register address, into the outside location otherwise. -/
def OutPtr.store (ptr : OutPtr) (hw : Hw) (v : Nat) : Hw × OutPtr :=
  match ptr with
  | OutPtr.null => (hw, OutPtr.null)
  | OutPtr.reg a => (hw.store a v, OutPtr.reg a)
  | OutPtr.ext _ => (hw, OutPtr.ext v)

/-- Outcome of a read call through an `OutPtr`: the status, the hardware state
after it and the pointer with the content of an outside location after it. -/
structure ReadMemResult where
  status : Status
  hw : Hw
  out : OutPtr

/-- The function `PINMUX_read (port, pin_no, AF_number)` with the output
pointer `AF_number` as an `OutPtr`. -/
def PINMUX_read_mem (PINMUX_BASE : Nat) (hw : Hw) (port pin_no : Nat) (AF_number : OutPtr) :
    ReadMemResult :=
  if port > PORT_NUMBER_3 then ⟨DRIVER_ERROR, hw, AF_number⟩
  else if pin_no > PIN_NUMBER_31 then ⟨DRIVER_ERROR, hw, AF_number⟩
  else if AF_number = OutPtr.null then ⟨DRIVER_ERROR, hw, AF_number⟩
  else
    let ptr := (PINMUX_read_select PINMUX_BASE port pin_no).1
    let value := (PINMUX_read_select PINMUX_BASE port pin_no).2
    -- *AF_number = (((*ptr) >> value) & 0xF);
    let st := AF_number.store hw ((hw.load ptr >>> value) &&& 0xF)
    ⟨DRIVER_OK, st.1, st.2⟩

/-- The function `PINPAD_read (port, pin_no, function)` with the output pointer
`function` as an `OutPtr`.  The result is `none` exactly when an access outside
a bank array would be made. -/
def PINPAD_read_mem (hw : Hw) (port pin_no : Nat) (function : OutPtr) : Option ReadMemResult :=
  if port > PORT_NUMBER_4 then some ⟨DRIVER_ERROR, hw, function⟩
  else if pin_no > PIN_NUMBER_31 then some ⟨DRIVER_ERROR, hw, function⟩
  else if function = OutPtr.null then some ⟨DRIVER_ERROR, hw, function⟩
  else if port = PORT_NUMBER_1 then
    (hw.pad.port_1.read pin_no).map
      fun x => ⟨DRIVER_OK, (function.store hw x).1, (function.store hw x).2⟩
  else if port = PORT_NUMBER_2 then
    (hw.pad.port_2.read pin_no).map
      fun x => ⟨DRIVER_OK, (function.store hw x).1, (function.store hw x).2⟩
  else if port = PORT_NUMBER_3 then
    if pin_no ≥ PORT3_MAX_PIN_NUMBER then some ⟨DRIVER_ERROR, hw, function⟩
    else
      (hw.pad.port_3.read pin_no).map
        fun x => ⟨DRIVER_OK, (function.store hw x).1, (function.store hw x).2⟩
  else if port = PORT_NUMBER_4 then
    if pin_no ≥ PORT4_MAX_PIN_NUMBER then some ⟨DRIVER_ERROR, hw, function⟩
    else
      (hw.pad.port_4.read pin_no).map
        fun x => ⟨DRIVER_OK, (function.store hw x).1, (function.store hw x).2⟩
  else some ⟨DRIVER_OK, hw, function⟩

/-- The result of a read on an outside location, as a `ReadMemResult`. -/
def ReadResult.toMem (r : ReadResult) : ReadMemResult :=
  ⟨r.status, r.hw, OutPtr.ofOption r.out⟩

/-! ## Helper lemmas: addressing -/

theorem PINMUX_Config_select_eq (base p n : Nat) (hp : p ≤ 3) (hn : n ≤ 31) :
    PINMUX_Config_select base p n = mux_address_rule base p n := by
  unfold PINMUX_Config_select mux_address_rule
  have h1 : (p * 16 + 16) % 256 = p * 16 + 16 := by omega
  simp only [h1]
  split_ifs <;> (apply Prod.ext <;> simp <;> omega)

theorem PINMUX_read_select_eq (base p n : Nat) (hp : p ≤ 3) (hn : n ≤ 31) :
    PINMUX_read_select base p n = mux_address_rule base p n := by
  unfold PINMUX_read_select mux_address_rule
  have h1 : (p * 16 + 16) % 256 = p * 16 + 16 := by omega
  simp only [h1]
  split_ifs <;> (apply Prod.ext <;> simp <;> omega)

/-! ## Helper lemmas: the 4-bit field -/

/-- The operand `~(0xF << value)` converted to `uint32_t` is the all-ones word
with the four bits of the field removed. -/
theorem clear_mask_eq (k : Nat) (hk : k ≤ 7) :
    to_uint32 (not_int (shl_int 0xF (k * 4))) = (2 ^ 32 - 1) ^^^ (15 <<< (k * 4)) := by
  interval_cases k <;> decide

/-- The operand `AF_number << value` does not overflow for a selector up to 7. -/
theorem field_value_eq (v k : Nat) (hv : v ≤ 7) (hk : k ≤ 7) :
    to_uint32 (shl_int v (k * 4)) = v <<< (k * 4) := by
  interval_cases k <;> interval_cases v <;> decide

theorem testBit_clear_mask (k i : Nat) :
    ((2 ^ 32 - 1) ^^^ (15 <<< (k * 4))).testBit i
      = (decide (i < 32) ^^ (decide (k * 4 ≤ i) && decide (i - k * 4 < 4))) := by
  have h15 : (15 : Nat) = 2 ^ 4 - 1 := by norm_num
  rw [Nat.testBit_xor, Nat.testBit_two_pow_sub_one, Nat.testBit_shiftLeft, h15,
    Nat.testBit_two_pow_sub_one]

theorem testBit_of_le_seven (v i : Nat) (hv : v ≤ 7) (hi : ¬ i < 4) : v.testBit i = false := by
  apply Nat.testBit_lt_two_pow
  calc v < 2 ^ 4 := by omega
    _ ≤ 2 ^ i := Nat.pow_le_pow_right (by norm_num) (by omega)

/-- Clearing field `k` of a word, or-ing in `v` and extracting field `k` gives `v`. -/
theorem field_roundtrip (r v k : Nat) (hv : v ≤ 7) (hk : k ≤ 7) :
    (((r &&& ((2 ^ 32 - 1) ^^^ (15 <<< (k * 4)))) ||| (v <<< (k * 4))) >>> (k * 4)) &&& 0xF
      = v := by
  apply Nat.eq_of_testBit_eq
  intro i
  have h15 : (0xF : Nat) = 2 ^ 4 - 1 := by norm_num
  rw [Nat.testBit_and, Nat.testBit_shiftRight, Nat.testBit_or, Nat.testBit_and,
    testBit_clear_mask, Nat.testBit_shiftLeft, h15, Nat.testBit_two_pow_sub_one]
  by_cases hi : i < 4
  · have : k * 4 + i < 32 := by omega
    simp [hi, this]
  · simp [hi, testBit_of_le_seven v i hv hi]

/-- Rewriting field `k` of a word leaves every other field `j` as it was. -/
theorem field_frame (r v k j : Nat) (hv : v ≤ 7) (hj : j ≤ 7) (hne : j ≠ k) :
    (((r &&& ((2 ^ 32 - 1) ^^^ (15 <<< (k * 4)))) ||| (v <<< (k * 4))) >>> (j * 4)) &&& 0xF
      = (r >>> (j * 4)) &&& 0xF := by
  apply Nat.eq_of_testBit_eq
  intro i
  have h15 : (0xF : Nat) = 2 ^ 4 - 1 := by norm_num
  rw [Nat.testBit_and, Nat.testBit_shiftRight, Nat.testBit_or, Nat.testBit_and,
    testBit_clear_mask, Nat.testBit_shiftLeft, h15, Nat.testBit_two_pow_sub_one,
    Nat.testBit_and, Nat.testBit_shiftRight, Nat.testBit_two_pow_sub_one]
  by_cases hi : i < 4
  · have h32 : j * 4 + i < 32 := by omega
    by_cases hle : k * 4 ≤ j * 4 + i
    · have h1 : ¬ (j * 4 + i - k * 4 < 4) := by omega
      simp [hi, h32, hle, h1, testBit_of_le_seven v _ hv h1]
    · simp [hi, h32, hle]
  · simp [hi]

/-! ## Helper lemmas: the multiplex functions on valid arguments -/

/-- On valid arguments `PINMUX_Config` succeeds and rewrites one register: the
word at the rule's address with the field cleared and the selector or-ed in. -/
theorem PINMUX_Config_valid (base : Nat) (hw : Hw) (p n v : Nat)
    (hp : p ≤ 3) (hn : n ≤ 31) (hv : v ≤ 7) :
    PINMUX_Config base hw p n v =
      ⟨DRIVER_OK, hw.store (base + (p * 16 + 16) + 4 * (n / 8))
        ((hw.mux (base + (p * 16 + 16) + 4 * (n / 8))
            &&& ((2 ^ 32 - 1) ^^^ (15 <<< (n % 8 * 4)))) ||| (v <<< (n % 8 * 4)))⟩ := by
  have h1 : ¬ p > PORT_NUMBER_3 := by simp [PORT_NUMBER_3]; omega
  have h2 : ¬ n > PIN_NUMBER_31 := by simp [PIN_NUMBER_31]; omega
  have h3 : ¬ v > PINMUX_ALTERNATE_FUNCTION_7 := by simp [PINMUX_ALTERNATE_FUNCTION_7]; omega
  have hk : n % 8 ≤ 7 := by omega
  simp only [PINMUX_Config, h1, h2, h3, if_false, PINMUX_Config_select_eq base p n hp hn,
    mux_address_rule, clear_mask_eq _ hk, field_value_eq v _ hv hk, Hw.store, Hw.load,
    Function.update_same, Function.update_idem]

/-- On valid arguments and a non-null output `PINMUX_read` succeeds, leaves the
hardware alone and stores the shifted and masked register. -/
theorem PINMUX_read_valid (base : Nat) (hw : Hw) (p n old : Nat) (hp : p ≤ 3) (hn : n ≤ 31) :
    PINMUX_read base hw p n (some old) =
      ⟨DRIVER_OK, hw,
        some ((hw.mux (base + (p * 16 + 16) + 4 * (n / 8)) >>> (n % 8 * 4)) &&& 0xF)⟩ := by
  have h1 : ¬ p > PORT_NUMBER_3 := by simp [PORT_NUMBER_3]; omega
  have h2 : ¬ n > PIN_NUMBER_31 := by simp [PIN_NUMBER_31]; omega
  simp only [PINMUX_read, h1, h2, if_false, PINMUX_read_select_eq base p n hp hn,
    mux_address_rule, Hw.load]

/-! ## Multiplex round trip and addressing -/

/-- C1. Multiplex round trip: for every register memory, port `p ≤ 3`, pin
`n ≤ 31` and selector `v ≤ 7`, `PINMUX_Config` succeeds and a following
`PINMUX_read` through a non-null pointer succeeds and stores exactly `v`
(pins 7, 15, 23 and 31, whose field is bits 31:28, included). -/
theorem PINMUX_Config_read_roundtrip (PINMUX_BASE : Nat) (hw : Hw) (p n v old : Nat)
    (hp : p ≤ 3) (hn : n ≤ 31) (hv : v ≤ 7) :
    (PINMUX_Config PINMUX_BASE hw p n v).status = DRIVER_OK ∧
    (PINMUX_read PINMUX_BASE (PINMUX_Config PINMUX_BASE hw p n v).hw p n (some old)).status
      = DRIVER_OK ∧
    (PINMUX_read PINMUX_BASE (PINMUX_Config PINMUX_BASE hw p n v).hw p n (some old)).out
      = some v := by
  have hk : n % 8 ≤ 7 := by omega
  rw [PINMUX_read_valid _ _ p n old hp hn, PINMUX_Config_valid _ hw p n v hp hn hv]
  simp only [Hw.store, Function.update_same, field_roundtrip _ v _ hv hk, and_self]

theorem PINMUX_Config_read_roundtrip_witness :
    (3 : Nat) ≤ 3 ∧ (31 : Nat) ≤ 31 ∧ (7 : Nat) ≤ 7 ∧
    ((PINMUX_Config 0x1000 hw_ones 3 31 7).status = DRIVER_OK ∧
    (PINMUX_read 0x1000 (PINMUX_Config 0x1000 hw_ones 3 31 7).hw 3 31 (some 0)).status
      = DRIVER_OK ∧
    (PINMUX_read 0x1000 (PINMUX_Config 0x1000 hw_ones 3 31 7).hw 3 31 (some 0)).out
      = some 7) :=
  ⟨by decide, by decide, by decide,
    PINMUX_Config_read_roundtrip 0x1000 hw_ones 3 31 7 0 (by decide) (by decide) (by decide)⟩

/-- C3. Multiplex addressing follows the reference rule: for `p ≤ 3` and
`n ≤ 31` the if-chains of `PINMUX_Config` and of `PINMUX_read` both select the
register at `PINMUX_BASE + (p*16 + 16) + 4*(n div 8)` and the field starting at
bit `(n mod 8)*4`; `PINMUX_Config` changes no register at any other address and
leaves the selector in that field, and `PINMUX_read` stores that field of that
register.  Example: port 1, pin 9, selector 5 sets bits 7:4 of the register at
base + 36 to 5 and the read returns 5. -/
theorem PINMUX_addressing_rule (PINMUX_BASE : Nat) (hw : Hw) (p n : Nat)
    (hp : p ≤ 3) (hn : n ≤ 31) :
    PINMUX_Config_select PINMUX_BASE p n = mux_address_rule PINMUX_BASE p n ∧
    PINMUX_read_select PINMUX_BASE p n = mux_address_rule PINMUX_BASE p n ∧
    mux_address_rule PINMUX_BASE p n
      = (PINMUX_BASE + (p * 16 + 16) + 4 * (n / 8), (n % 8) * 4) ∧
    (∀ v a, v ≤ 7 → a ≠ PINMUX_BASE + (p * 16 + 16) + 4 * (n / 8) →
      (PINMUX_Config PINMUX_BASE hw p n v).hw.mux a = hw.mux a) ∧
    (∀ v, v ≤ 7 →
      ((PINMUX_Config PINMUX_BASE hw p n v).hw.mux (PINMUX_BASE + (p * 16 + 16) + 4 * (n / 8))
        >>> ((n % 8) * 4)) &&& 0xF = v) ∧
    (∀ old, (PINMUX_read PINMUX_BASE hw p n (some old)).out
      = some ((hw.mux (PINMUX_BASE + (p * 16 + 16) + 4 * (n / 8)) >>> ((n % 8) * 4)) &&& 0xF)) ∧
    (((PINMUX_Config PINMUX_BASE hw 1 9 5).hw.mux (PINMUX_BASE + 36) >>> 4) &&& 0xF = 5 ∧
      (PINMUX_read PINMUX_BASE (PINMUX_Config PINMUX_BASE hw 1 9 5).hw 1 9 (some 0)).out
        = some 5) := by
  have hk : n % 8 ≤ 7 := by omega
  refine ⟨PINMUX_Config_select_eq _ p n hp hn, PINMUX_read_select_eq _ p n hp hn, rfl,
    ?_, ?_, ?_, ?_, ?_⟩
  · intro v a hv ha
    rw [PINMUX_Config_valid _ hw p n v hp hn hv]
    simp only [Hw.store, Function.update_noteq ha]
  · intro v hv
    rw [PINMUX_Config_valid _ hw p n v hp hn hv]
    simp only [Hw.store, Function.update_same]
    exact field_roundtrip _ v _ hv hk
  · intro old
    rw [PINMUX_read_valid _ hw p n old hp hn]
  · rw [PINMUX_Config_valid _ hw 1 9 5 (by decide) (by decide) (by decide)]
    simp only [Hw.store]
    have h := field_roundtrip (hw.mux (PINMUX_BASE + 36)) 5 1 (by decide) (by decide)
    simpa using h
  · rw [PINMUX_read_valid _ _ 1 9 0 (by decide) (by decide),
      PINMUX_Config_valid _ hw 1 9 5 (by decide) (by decide) (by decide)]
    simp only [Hw.store]
    have h := field_roundtrip (hw.mux (PINMUX_BASE + 36)) 5 1 (by decide) (by decide)
    simpa using h

theorem PINMUX_addressing_rule_witness :
    (1 : Nat) ≤ 3 ∧ (9 : Nat) ≤ 31 ∧
    PINMUX_Config_select 0x1000 1 9 = (0x1000 + 36, 4) ∧
    PINMUX_read_select 0x1000 1 9 = (0x1000 + 36, 4) :=
  ⟨by decide, by decide,
    (PINMUX_addressing_rule 0x1000 hw_zero 1 9 (by decide) (by decide)).1,
    (PINMUX_addressing_rule 0x1000 hw_zero 1 9 (by decide) (by decide)).2.1⟩

/-- C4. Adjacent multiplex fields do not interfere: for `p ≤ 3`, pins `n` and
`n + 1` in the same 8-pin group and selectors `v1, v2 ≤ 7`, after
`PINMUX_Config (p, n, v1)` followed by `PINMUX_Config (p, n+1, v2)` the call
`PINMUX_read (p, n, out)` succeeds and stores `v1`. -/
theorem PINMUX_adjacent_field_preserved (PINMUX_BASE : Nat) (hw : Hw) (p n v1 v2 old : Nat)
    (hp : p ≤ 3) (hn : n ≤ 30) (hg : n % 8 ≠ 7) (hv1 : v1 ≤ 7) (hv2 : v2 ≤ 7) :
    (PINMUX_read PINMUX_BASE
      (PINMUX_Config PINMUX_BASE (PINMUX_Config PINMUX_BASE hw p n v1).hw p (n + 1) v2).hw
      p n (some old)).status = DRIVER_OK ∧
    (PINMUX_read PINMUX_BASE
      (PINMUX_Config PINMUX_BASE (PINMUX_Config PINMUX_BASE hw p n v1).hw p (n + 1) v2).hw
      p n (some old)).out = some v1 := by
  have hk : n % 8 ≤ 7 := by omega
  have hdiv : (n + 1) / 8 = n / 8 := by omega
  have hmod : (n + 1) % 8 = n % 8 + 1 := by omega
  rw [PINMUX_read_valid _ _ p n old hp (by omega),
    PINMUX_Config_valid _ _ p (n + 1) v2 hp (by omega) hv2,
    PINMUX_Config_valid _ hw p n v1 hp (by omega) hv1]
  simp only [Hw.store, hdiv, hmod, Function.update_same, true_and]
  rw [field_frame _ v2 (n % 8 + 1) (n % 8) hv2 hk (by omega), field_roundtrip _ v1 _ hv1 hk]

theorem PINMUX_adjacent_field_preserved_witness :
    (2 : Nat) ≤ 3 ∧ (6 : Nat) ≤ 30 ∧ (6 : Nat) % 8 ≠ 7 ∧ (7 : Nat) ≤ 7 ∧ (5 : Nat) ≤ 7 ∧
    ((PINMUX_read 0x1000
      (PINMUX_Config 0x1000 (PINMUX_Config 0x1000 hw_ones 2 6 7).hw 2 (6 + 1) 5).hw
      2 6 (some 0)).status = DRIVER_OK ∧
    (PINMUX_read 0x1000
      (PINMUX_Config 0x1000 (PINMUX_Config 0x1000 hw_ones 2 6 7).hw 2 (6 + 1) 5).hw
      2 6 (some 0)).out = some 7) :=
  ⟨by decide, by decide, by decide, by decide, by decide,
    PINMUX_adjacent_field_preserved 0x1000 hw_ones 2 6 7 5 0
      (by decide) (by decide) (by decide) (by decide) (by decide)⟩

/-! ## Pad functions on supported coordinates -/

theorem Bank.write_of_lt {n : Nat} (b : Bank n) (i v : Nat) (h : i < n) :
    b.write i v = some (Function.update b ⟨i, h⟩ v) := by
  simp [Bank.write, h]

theorem Bank.read_of_lt {n : Nat} (b : Bank n) (i : Nat) (h : i < n) :
    b.read i = some (b ⟨i, h⟩) := by
  simp [Bank.read, h]

theorem Bank.read_write {n : Nat} (b : Bank n) (i v : Nat) (h : i < n) :
    Bank.read (Function.update b ⟨i, h⟩ v) i = some v := by
  simp [Bank.read, h]

theorem PINPAD_Config_port_1 (hw : Hw) (pin_no f : Nat) (h : pin_no < 32) :
    PINPAD_Config hw 1 pin_no f = some ⟨DRIVER_OK,
      { hw with pad := { hw.pad with port_1 := Function.update hw.pad.port_1 ⟨pin_no, h⟩ f } }⟩ := by
  have h31 : ¬ 31 < pin_no := by omega
  simp [PINPAD_Config, PORT_NUMBER_4, PORT_NUMBER_1, PIN_NUMBER_31, Bank.write_of_lt _ _ _ h, h31]

theorem PINPAD_Config_port_2 (hw : Hw) (pin_no f : Nat) (h : pin_no < 32) :
    PINPAD_Config hw 2 pin_no f = some ⟨DRIVER_OK,
      { hw with pad := { hw.pad with port_2 := Function.update hw.pad.port_2 ⟨pin_no, h⟩ f } }⟩ := by
  have h31 : ¬ 31 < pin_no := by omega
  simp [PINPAD_Config, PORT_NUMBER_4, PORT_NUMBER_1, PORT_NUMBER_2, PIN_NUMBER_31,
    Bank.write_of_lt _ _ _ h, h31]

theorem PINPAD_Config_port_3 (hw : Hw) (pin_no f : Nat) (h : pin_no < 24) :
    PINPAD_Config hw 3 pin_no f = some ⟨DRIVER_OK,
      { hw with pad := { hw.pad with port_3 := Function.update hw.pad.port_3 ⟨pin_no, h⟩ f } }⟩ := by
  have h31 : ¬ 31 < pin_no := by omega
  have h24 : ¬ 24 ≤ pin_no := by omega
  simp [PINPAD_Config, PORT_NUMBER_4, PORT_NUMBER_1, PORT_NUMBER_2, PORT_NUMBER_3,
    PIN_NUMBER_31, PORT3_MAX_PIN_NUMBER, Bank.write_of_lt _ _ _ h, h31, h24]

theorem PINPAD_Config_port_4 (hw : Hw) (pin_no f : Nat) (h : pin_no < 8) :
    PINPAD_Config hw 4 pin_no f = some ⟨DRIVER_OK,
      { hw with pad := { hw.pad with port_4 := Function.update hw.pad.port_4 ⟨pin_no, h⟩ f } }⟩ := by
  have h31 : ¬ 31 < pin_no := by omega
  have h8 : ¬ 8 ≤ pin_no := by omega
  simp [PINPAD_Config, PORT_NUMBER_4, PORT_NUMBER_1, PORT_NUMBER_2, PORT_NUMBER_3,
    PIN_NUMBER_31, PORT4_MAX_PIN_NUMBER, Bank.write_of_lt _ _ _ h, h31, h8]

theorem PINPAD_read_port_1 (hw : Hw) (pin_no old : Nat) (h : pin_no < 32) :
    PINPAD_read hw 1 pin_no (some old)
      = some ⟨DRIVER_OK, hw, some (hw.pad.port_1 ⟨pin_no, h⟩)⟩ := by
  have h31 : ¬ 31 < pin_no := by omega
  simp [PINPAD_read, PORT_NUMBER_4, PORT_NUMBER_1, PIN_NUMBER_31, Bank.read_of_lt _ _ h, h31]

theorem PINPAD_read_port_2 (hw : Hw) (pin_no old : Nat) (h : pin_no < 32) :
    PINPAD_read hw 2 pin_no (some old)
      = some ⟨DRIVER_OK, hw, some (hw.pad.port_2 ⟨pin_no, h⟩)⟩ := by
  have h31 : ¬ 31 < pin_no := by omega
  simp [PINPAD_read, PORT_NUMBER_4, PORT_NUMBER_1, PORT_NUMBER_2, PIN_NUMBER_31,
    Bank.read_of_lt _ _ h, h31]

theorem PINPAD_read_port_3 (hw : Hw) (pin_no old : Nat) (h : pin_no < 24) :
    PINPAD_read hw 3 pin_no (some old)
      = some ⟨DRIVER_OK, hw, some (hw.pad.port_3 ⟨pin_no, h⟩)⟩ := by
  have h31 : ¬ 31 < pin_no := by omega
  have h24 : ¬ 24 ≤ pin_no := by omega
  simp [PINPAD_read, PORT_NUMBER_4, PORT_NUMBER_1, PORT_NUMBER_2, PORT_NUMBER_3,
    PIN_NUMBER_31, PORT3_MAX_PIN_NUMBER, Bank.read_of_lt _ _ h, h31, h24]

theorem PINPAD_read_port_4 (hw : Hw) (pin_no old : Nat) (h : pin_no < 8) :
    PINPAD_read hw 4 pin_no (some old)
      = some ⟨DRIVER_OK, hw, some (hw.pad.port_4 ⟨pin_no, h⟩)⟩ := by
  have h31 : ¬ 31 < pin_no := by omega
  have h8 : ¬ 8 ≤ pin_no := by omega
  simp [PINPAD_read, PORT_NUMBER_4, PORT_NUMBER_1, PORT_NUMBER_2, PORT_NUMBER_3,
    PIN_NUMBER_31, PORT4_MAX_PIN_NUMBER, Bank.read_of_lt _ _ h, h31, h8]

/-- On a supported coordinate `PINPAD_Config` succeeds and afterwards the entry
of that coordinate holds the value written. -/
theorem PINPAD_Config_supported (hw : Hw) (port pin_no f : Nat)
    (hs : pad_supported port pin_no) :
    ∃ c, PINPAD_Config hw port pin_no f = some c ∧ c.status = DRIVER_OK ∧
      pad_entry c.hw port pin_no = some f := by
  rcases hs with ⟨h | h, hpin⟩ | ⟨h, hpin⟩ | ⟨h, hpin⟩ <;> subst h
  · exact ⟨_, PINPAD_Config_port_1 hw pin_no f (by omega), rfl, by simp [pad_entry, Bank.read_write]⟩
  · exact ⟨_, PINPAD_Config_port_2 hw pin_no f (by omega), rfl, by simp [pad_entry, Bank.read_write]⟩
  · exact ⟨_, PINPAD_Config_port_3 hw pin_no f (by omega), rfl, by simp [pad_entry, Bank.read_write]⟩
  · exact ⟨_, PINPAD_Config_port_4 hw pin_no f (by omega), rfl, by simp [pad_entry, Bank.read_write]⟩

/-- On a supported coordinate and a non-null output `PINPAD_read` succeeds,
leaves the hardware alone and stores the entry of that coordinate. -/
theorem PINPAD_read_supported (hw : Hw) (port pin_no old : Nat)
    (hs : pad_supported port pin_no) :
    ∃ x, pad_entry hw port pin_no = some x ∧
      PINPAD_read hw port pin_no (some old) = some ⟨DRIVER_OK, hw, some x⟩ := by
  rcases hs with ⟨h | h, hpin⟩ | ⟨h, hpin⟩ | ⟨h, hpin⟩ <;> subst h
  · have hlt : pin_no < 32 := by omega
    exact ⟨_, by simp only [pad_entry, Bank.read_of_lt _ _ hlt, if_true],
      PINPAD_read_port_1 hw pin_no old hlt⟩
  · have hlt : pin_no < 32 := by omega
    exact ⟨hw.pad.port_2 ⟨pin_no, hlt⟩, by simp [pad_entry, Bank.read_of_lt _ _ hlt],
      PINPAD_read_port_2 hw pin_no old hlt⟩
  · have hlt : pin_no < 24 := by omega
    exact ⟨hw.pad.port_3 ⟨pin_no, hlt⟩, by simp [pad_entry, Bank.read_of_lt _ _ hlt],
      PINPAD_read_port_3 hw pin_no old hlt⟩
  · have hlt : pin_no < 8 := by omega
    exact ⟨hw.pad.port_4 ⟨pin_no, hlt⟩, by simp [pad_entry, Bank.read_of_lt _ _ hlt],
      PINPAD_read_port_4 hw pin_no old hlt⟩

/-- C2. Pad round trip: for every pad memory, every byte `f ≤ 255` and every
supported coordinate (port 1 or 2 with pin 0..31, port 3 with pin 0..23,
port 4 with pin 0..7), `PINPAD_Config` succeeds and a following `PINPAD_read`
through a non-null pointer succeeds and stores exactly `f`. -/
theorem PINPAD_Config_read_roundtrip (hw : Hw) (port pin_no f old : Nat)
    (hs : pad_supported port pin_no) (_hf : f ≤ 255) :
    ∃ c, PINPAD_Config hw port pin_no f = some c ∧ c.status = DRIVER_OK ∧
      ∃ r, PINPAD_read c.hw port pin_no (some old) = some r ∧
        r.status = DRIVER_OK ∧ r.out = some f := by
  obtain ⟨c, hc, hst, hent⟩ := PINPAD_Config_supported hw port pin_no f hs
  obtain ⟨x, hx, hr⟩ := PINPAD_read_supported c.hw port pin_no old hs
  rw [hent] at hx
  cases hx
  exact ⟨c, hc, hst, _, hr, rfl, rfl⟩

theorem PINPAD_Config_read_roundtrip_witness :
    pad_supported 3 23 ∧ (255 : Nat) ≤ 255 ∧
    ∃ c, PINPAD_Config hw_zero 3 23 255 = some c ∧ c.status = DRIVER_OK ∧
      ∃ r, PINPAD_read c.hw 3 23 (some 0) = some r ∧
        r.status = DRIVER_OK ∧ r.out = some 255 :=
  ⟨by decide, by decide,
    PINPAD_Config_read_roundtrip hw_zero 3 23 255 0 (by decide) (by decide)⟩

/-! ## Validation -/

/-- C5. `PINMUX_Config` fails exactly on out-of-range arguments: for all
`port`, `pin_no` and `AF_number` (in particular all 8-bit ones) it returns
`DRIVER_ERROR` if and only if `port > 3` or `pin_no > 31` or `AF_number > 7`,
and `DRIVER_OK` otherwise; every `port > 3` and every `pin_no > 31` is rejected
whatever the other arguments are. -/
theorem PINMUX_Config_status (PINMUX_BASE : Nat) (hw : Hw) (port pin_no AF_number : Nat) :
    ((PINMUX_Config PINMUX_BASE hw port pin_no AF_number).status = DRIVER_ERROR
      ↔ (port > 3 ∨ pin_no > 31 ∨ AF_number > 7)) ∧
    ((PINMUX_Config PINMUX_BASE hw port pin_no AF_number).status = DRIVER_OK
      ↔ ¬ (port > 3 ∨ pin_no > 31 ∨ AF_number > 7)) ∧
    (port > 3 → ∀ pin af, (PINMUX_Config PINMUX_BASE hw port pin af).status = DRIVER_ERROR) ∧
    (pin_no > 31 → ∀ p af, (PINMUX_Config PINMUX_BASE hw p pin_no af).status = DRIVER_ERROR) := by
  have key : ∀ p n a, (PINMUX_Config PINMUX_BASE hw p n a).status
      = if p > 3 ∨ n > 31 ∨ a > 7 then DRIVER_ERROR else DRIVER_OK := by
    intro p n a
    unfold PINMUX_Config PORT_NUMBER_3 PIN_NUMBER_31 PINMUX_ALTERNATE_FUNCTION_7
    by_cases h1 : p > 3
    · simp [h1]
    · by_cases h2 : n > 31
      · simp [h1, h2]
      · by_cases h3 : a > 7
        · simp [h1, h2, h3]
        · simp [h1, h2, h3]
  refine ⟨?_, ?_, ?_, ?_⟩
  · rw [key]; split_ifs with h <;> simp [h]
  · rw [key]; split_ifs with h <;> simp [h]
  · intro h pin af; rw [key]; simp [h]
  · intro h p af; rw [key]; simp [h]

theorem PINMUX_Config_status_witness :
    (4 : Nat) > 3 ∧ (32 : Nat) > 31 ∧
    (PINMUX_Config 0x1000 hw_zero 4 0 0).status = DRIVER_ERROR ∧
    (PINMUX_Config 0x1000 hw_zero 0 32 0).status = DRIVER_ERROR :=
  ⟨by decide, by decide,
    (PINMUX_Config_status 0x1000 hw_zero 4 32 0).2.2.1 (by decide) 0 0,
    (PINMUX_Config_status 0x1000 hw_zero 4 32 0).2.2.2 (by decide) 0 0⟩

/-- C6. `PINMUX_read` fails exactly on out-of-range arguments or an absent
output: for all `port` and `pin_no` (in particular all 8-bit ones) and every
possibly null output location it returns `DRIVER_ERROR` if and only if
`port > 3` or `pin_no > 31` or the output location is null, and `DRIVER_OK`
otherwise. -/
theorem PINMUX_read_status (PINMUX_BASE : Nat) (hw : Hw) (port pin_no : Nat)
    (AF_number : Option Nat) :
    ((PINMUX_read PINMUX_BASE hw port pin_no AF_number).status = DRIVER_ERROR
      ↔ (port > 3 ∨ pin_no > 31 ∨ AF_number = none)) ∧
    ((PINMUX_read PINMUX_BASE hw port pin_no AF_number).status = DRIVER_OK
      ↔ ¬ (port > 3 ∨ pin_no > 31 ∨ AF_number = none)) := by
  have key : (PINMUX_read PINMUX_BASE hw port pin_no AF_number).status
      = if port > 3 ∨ pin_no > 31 ∨ AF_number = none then DRIVER_ERROR else DRIVER_OK := by
    unfold PINMUX_read PORT_NUMBER_3 PIN_NUMBER_31
    by_cases h1 : port > 3
    · simp [h1]
    · by_cases h2 : pin_no > 31
      · simp [h1, h2]
      · cases AF_number <;> simp [h1, h2]
  constructor
  · rw [key]; split_ifs with h <;> simp [h]
  · rw [key]; split_ifs with h <;> simp [h]

/-- `PINPAD_Config` always returns: the status is decided by the coordinate
alone, and a rejected call hands back the hardware state it was given. -/
theorem PINPAD_Config_total (hw : Hw) (port pin_no f : Nat) :
    ∃ c, PINPAD_Config hw port pin_no f = some c ∧
      c.status = (if port > 4 ∨ pin_no > 31 ∨ (port = 3 ∧ pin_no ≥ 24) ∨ (port = 4 ∧ pin_no ≥ 8)
        then DRIVER_ERROR else DRIVER_OK) ∧
      (c.status = DRIVER_ERROR → c.hw = hw) := by
  by_cases h1 : port > 4
  · exact ⟨⟨DRIVER_ERROR, hw⟩, by simp [PINPAD_Config, PORT_NUMBER_4, h1], by simp [h1],
      fun _ => rfl⟩
  by_cases h2 : pin_no > 31
  · exact ⟨⟨DRIVER_ERROR, hw⟩, by simp [PINPAD_Config, PORT_NUMBER_4, PIN_NUMBER_31, h1, h2],
      by simp [h2], fun _ => rfl⟩
  have hport : port = 0 ∨ port = 1 ∨ port = 2 ∨ port = 3 ∨ port = 4 := by omega
  rcases hport with h | h | h | h | h <;> subst h
  · exact ⟨⟨DRIVER_OK, hw⟩,
      by simp [PINPAD_Config, PORT_NUMBER_4, PORT_NUMBER_1, PORT_NUMBER_2, PORT_NUMBER_3,
        PIN_NUMBER_31, h2],
      by simp [h2], fun h => by cases h⟩
  · exact ⟨_, PINPAD_Config_port_1 hw pin_no f (by omega), by simp [h2], fun h => by cases h⟩
  · exact ⟨_, PINPAD_Config_port_2 hw pin_no f (by omega), by simp [h2], fun h => by cases h⟩
  · by_cases h3 : pin_no ≥ 24
    · exact ⟨⟨DRIVER_ERROR, hw⟩,
        by simp [PINPAD_Config, PORT_NUMBER_4, PORT_NUMBER_1, PORT_NUMBER_2, PORT_NUMBER_3,
          PIN_NUMBER_31, PORT3_MAX_PIN_NUMBER, h2, h3],
        by simp [h3], fun _ => rfl⟩
    · exact ⟨_, PINPAD_Config_port_3 hw pin_no f (by omega), by simp [h2, h3],
        fun h => by cases h⟩
  · by_cases h3 : pin_no ≥ 8
    · exact ⟨⟨DRIVER_ERROR, hw⟩,
        by simp [PINPAD_Config, PORT_NUMBER_4, PORT_NUMBER_1, PORT_NUMBER_2, PORT_NUMBER_3,
          PIN_NUMBER_31, PORT4_MAX_PIN_NUMBER, h2, h3],
        by simp [h3], fun _ => rfl⟩
    · exact ⟨_, PINPAD_Config_port_4 hw pin_no f (by omega), by simp [h2, h3],
        fun h => by cases h⟩

/-- `PINPAD_read` always returns: the status is decided by the coordinate and
the nullness of the output pointer, the hardware state is handed back as given,
and a rejected call leaves the output location as it was. -/
theorem PINPAD_read_total (hw : Hw) (port pin_no : Nat) (function : Option Nat) :
    ∃ r, PINPAD_read hw port pin_no function = some r ∧
      r.status = (if port > 4 ∨ pin_no > 31 ∨ (port = 3 ∧ pin_no ≥ 24) ∨ (port = 4 ∧ pin_no ≥ 8)
          ∨ function = none
        then DRIVER_ERROR else DRIVER_OK) ∧
      r.hw = hw ∧ (r.status = DRIVER_ERROR → r.out = function) := by
  by_cases h1 : port > 4
  · exact ⟨⟨DRIVER_ERROR, hw, function⟩, by simp [PINPAD_read, PORT_NUMBER_4, h1], by simp [h1],
      rfl, fun _ => rfl⟩
  by_cases h2 : pin_no > 31
  · exact ⟨⟨DRIVER_ERROR, hw, function⟩,
      by simp [PINPAD_read, PORT_NUMBER_4, PIN_NUMBER_31, h1, h2], by simp [h2], rfl,
      fun _ => rfl⟩
  cases function with
  | none =>
    exact ⟨⟨DRIVER_ERROR, hw, none⟩,
      by simp [PINPAD_read, PORT_NUMBER_4, PIN_NUMBER_31, h1, h2], by simp, rfl, fun _ => rfl⟩
  | some old =>
    have hport : port = 0 ∨ port = 1 ∨ port = 2 ∨ port = 3 ∨ port = 4 := by omega
    rcases hport with h | h | h | h | h <;> subst h
    · exact ⟨⟨DRIVER_OK, hw, some old⟩,
        by simp [PINPAD_read, PORT_NUMBER_4, PORT_NUMBER_1, PORT_NUMBER_2, PORT_NUMBER_3,
          PIN_NUMBER_31, h2],
        by simp [h2], rfl, fun h => by cases h⟩
    · exact ⟨_, PINPAD_read_port_1 hw pin_no old (by omega), by simp [h2], rfl,
        fun h => by cases h⟩
    · exact ⟨_, PINPAD_read_port_2 hw pin_no old (by omega), by simp [h2], rfl,
        fun h => by cases h⟩
    · by_cases h3 : pin_no ≥ 24
      · exact ⟨⟨DRIVER_ERROR, hw, some old⟩,
          by simp [PINPAD_read, PORT_NUMBER_4, PORT_NUMBER_1, PORT_NUMBER_2, PORT_NUMBER_3,
            PIN_NUMBER_31, PORT3_MAX_PIN_NUMBER, h2, h3],
          by simp [h3], rfl, fun _ => rfl⟩
      · exact ⟨_, PINPAD_read_port_3 hw pin_no old (by omega), by simp [h2, h3], rfl,
          fun h => by cases h⟩
    · by_cases h3 : pin_no ≥ 8
      · exact ⟨⟨DRIVER_ERROR, hw, some old⟩,
          by simp [PINPAD_read, PORT_NUMBER_4, PORT_NUMBER_1, PORT_NUMBER_2, PORT_NUMBER_3,
            PIN_NUMBER_31, PORT4_MAX_PIN_NUMBER, h2, h3],
          by simp [h3], rfl, fun _ => rfl⟩
      · exact ⟨_, PINPAD_read_port_4 hw pin_no old (by omega), by simp [h2, h3], rfl,
          fun h => by cases h⟩

/-- C7. `PINPAD_Config` fails exactly on unsupported coordinates: for all
`port`, `pin_no` and `function` (in particular all 8-bit ones) it returns, with
`DRIVER_ERROR` if and only if `port > 4` or `pin_no > 31` or (`port = 3` and
`pin_no ≥ 24`) or (`port = 4` and `pin_no ≥ 8`), and with `DRIVER_OK`
otherwise; the function byte never influences the status.  Example:
`PINPAD_Config (4, 8, 3)` returns `DRIVER_ERROR`. -/
theorem PINPAD_Config_status (hw : Hw) (port pin_no function : Nat) :
    (∃ c, PINPAD_Config hw port pin_no function = some c ∧
      (c.status = DRIVER_ERROR
        ↔ (port > 4 ∨ pin_no > 31 ∨ (port = 3 ∧ pin_no ≥ 24) ∨ (port = 4 ∧ pin_no ≥ 8))) ∧
      (c.status = DRIVER_OK
        ↔ ¬ (port > 4 ∨ pin_no > 31 ∨ (port = 3 ∧ pin_no ≥ 24) ∨ (port = 4 ∧ pin_no ≥ 8)))) ∧
    (∀ g, (PINPAD_Config hw port pin_no g).map CfgResult.status
      = (PINPAD_Config hw port pin_no function).map CfgResult.status) ∧
    (PINPAD_Config hw 4 8 3).map CfgResult.status = some DRIVER_ERROR := by
  refine ⟨?_, ?_, ?_⟩
  · obtain ⟨c, hc, hst, -⟩ := PINPAD_Config_total hw port pin_no function
    refine ⟨c, hc, ?_, ?_⟩
    · rw [hst]; split_ifs with h <;> simp [h]
    · rw [hst]; split_ifs with h <;> simp [h]
  · intro g
    obtain ⟨c, hc, hst, -⟩ := PINPAD_Config_total hw port pin_no function
    obtain ⟨d, hd, hdst, -⟩ := PINPAD_Config_total hw port pin_no g
    rw [hc, hd, Option.map_some', Option.map_some', hst, hdst]
  · obtain ⟨c, hc, hst, -⟩ := PINPAD_Config_total hw 4 8 3
    rw [hc, Option.map_some', hst]
    simp

/-- C8. `PINPAD_read` mirrors the validation of `PINPAD_Config`: for all
`port`, `pin_no`, every function byte `f` and every non-null output location,
both calls return and `PINPAD_read` returns `DRIVER_ERROR` if and only if
`PINPAD_Config` does; with a null output location `PINPAD_read` returns
`DRIVER_ERROR` for every `port` and `pin_no`. -/
theorem PINPAD_read_mirrors_Config (hw hw2 : Hw) (port pin_no f old : Nat) :
    (∃ r c, PINPAD_read hw port pin_no (some old) = some r ∧
      PINPAD_Config hw2 port pin_no f = some c ∧
      (r.status = DRIVER_ERROR ↔ c.status = DRIVER_ERROR)) ∧
    (∃ r, PINPAD_read hw port pin_no none = some r ∧ r.status = DRIVER_ERROR) := by
  constructor
  · obtain ⟨r, hr, hrst, -⟩ := PINPAD_read_total hw port pin_no (some old)
    obtain ⟨c, hc, hcst, -⟩ := PINPAD_Config_total hw2 port pin_no f
    refine ⟨r, c, hr, hc, ?_⟩
    rw [hrst, hcst]
    simp
  · obtain ⟨r, hr, hrst, -⟩ := PINPAD_read_total hw port pin_no none
    exact ⟨r, hr, by rw [hrst]; simp⟩

/-! ## Effects of rejected calls -/

theorem PINMUX_Config_error_frame (base : Nat) (hw : Hw) (port pin_no af : Nat)
    (h : (PINMUX_Config base hw port pin_no af).status = DRIVER_ERROR) :
    (PINMUX_Config base hw port pin_no af).hw = hw := by
  unfold PINMUX_Config at h ⊢
  split_ifs at h ⊢ <;> rfl

theorem PINMUX_read_error_frame (base : Nat) (hw : Hw) (port pin_no : Nat) (out : Option Nat)
    (h : (PINMUX_read base hw port pin_no out).status = DRIVER_ERROR) :
    (PINMUX_read base hw port pin_no out).hw = hw ∧
    (PINMUX_read base hw port pin_no out).out = out := by
  unfold PINMUX_read at h ⊢
  split_ifs at h ⊢
  · exact ⟨rfl, rfl⟩
  · exact ⟨rfl, rfl⟩
  · cases out with
    | none => exact ⟨rfl, rfl⟩
    | some x => cases h

/-- C9. No partial effects on error: for each of the four operations, every
initial register memory and every input on which the operation returns
`DRIVER_ERROR`, the multiplex and pad register memory after the call equals the
memory before it, and for the two read operations the output location is left
as it was.  The two pad operations always return.  Example:
`PINPAD_Config (4, 8, 3)` is rejected with the memory unchanged. -/
theorem no_partial_effects_on_error (PINMUX_BASE : Nat) (hw : Hw) (port pin_no arg : Nat)
    (out : Option Nat) :
    ((PINMUX_Config PINMUX_BASE hw port pin_no arg).status = DRIVER_ERROR →
      (PINMUX_Config PINMUX_BASE hw port pin_no arg).hw = hw) ∧
    ((PINMUX_read PINMUX_BASE hw port pin_no out).status = DRIVER_ERROR →
      (PINMUX_read PINMUX_BASE hw port pin_no out).hw = hw ∧
      (PINMUX_read PINMUX_BASE hw port pin_no out).out = out) ∧
    (∃ c, PINPAD_Config hw port pin_no arg = some c ∧
      (c.status = DRIVER_ERROR → c.hw = hw)) ∧
    (∃ r, PINPAD_read hw port pin_no out = some r ∧
      (r.status = DRIVER_ERROR → r.hw = hw ∧ r.out = out)) ∧
    PINPAD_Config hw 4 8 3 = some ⟨DRIVER_ERROR, hw⟩ := by
  refine ⟨PINMUX_Config_error_frame _ hw port pin_no arg,
    PINMUX_read_error_frame _ hw port pin_no out, ?_, ?_, ?_⟩
  · obtain ⟨c, hc, -, hfr⟩ := PINPAD_Config_total hw port pin_no arg
    exact ⟨c, hc, hfr⟩
  · obtain ⟨r, hr, -, hhw, hout⟩ := PINPAD_read_total hw port pin_no out
    exact ⟨r, hr, fun h => ⟨hhw, hout h⟩⟩
  · simp [PINPAD_Config, PORT_NUMBER_4, PORT_NUMBER_1, PORT_NUMBER_2, PORT_NUMBER_3,
      PIN_NUMBER_31, PORT4_MAX_PIN_NUMBER]

theorem no_partial_effects_on_error_witness :
    (PINMUX_Config 0x1000 hw_ones 1 32 8).status = DRIVER_ERROR ∧
    (PINMUX_Config 0x1000 hw_ones 1 32 8).hw = hw_ones ∧
    (PINMUX_read 0x1000 hw_ones 1 32 (some 9)).status = DRIVER_ERROR ∧
    (PINMUX_read 0x1000 hw_ones 1 32 (some 9)).hw = hw_ones ∧
    (PINMUX_read 0x1000 hw_ones 1 32 (some 9)).out = some 9 :=
  ⟨by decide,
    (no_partial_effects_on_error 0x1000 hw_ones 1 32 8 (some 9)).1 (by decide),
    by decide,
    ((no_partial_effects_on_error 0x1000 hw_ones 1 32 8 (some 9)).2.1 (by decide)).1,
    ((no_partial_effects_on_error 0x1000 hw_ones 1 32 8 (some 9)).2.1 (by decide)).2⟩

/-! ## Successful pad reads -/

/-- For a port that has a bank (`port ≥ 1`) a successful `PINPAD_read` stores
the pad entry of the coordinate in the output location. -/
theorem PINPAD_read_ok_delivers_entry (hw : Hw) (port pin_no old : Nat) (r : ReadResult)
    (hport : 1 ≤ port) (hr : PINPAD_read hw port pin_no (some old) = some r)
    (hok : r.status = DRIVER_OK) :
    ∃ x, pad_entry hw port pin_no = some x ∧ r.out = some x := by
  obtain ⟨r2, hr2, hst, -, -⟩ := PINPAD_read_total hw port pin_no (some old)
  rw [hr] at hr2
  cases hr2
  have hs : pad_supported port pin_no := by
    rw [hok] at hst
    by_cases hbad : port > 4 ∨ pin_no > 31 ∨ (port = 3 ∧ pin_no ≥ 24) ∨ (port = 4 ∧ pin_no ≥ 8)
        ∨ (some old : Option Nat) = none
    · rw [if_pos hbad] at hst; cases hst
    · unfold pad_supported
      simp only [not_or, not_and, not_le, not_lt, gt_iff_lt, ge_iff_le] at hbad
      omega
  obtain ⟨x, hx, hrx⟩ := PINPAD_read_supported hw port pin_no old hs
  rw [hr] at hrx
  cases hrx
  exact ⟨x, hx, rfl⟩

/-- C10 (failing input). `PINPAD_read (0, 5, out)` with `out` pointing at a
location holding `0xDEADBEEF` returns `DRIVER_OK` for every pad memory although
port 0 has no bank and hence no pad entry: the output location still holds
`0xDEADBEEF` after the call. -/
theorem PINPAD_read_port_0_ok_output_unwritten (hw : Hw) :
    PINPAD_read hw 0 5 (some 0xDEADBEEF) = some ⟨DRIVER_OK, hw, some 0xDEADBEEF⟩ ∧
    pad_entry hw 0 5 = none := by
  constructor
  · simp [PINPAD_read, PORT_NUMBER_4, PORT_NUMBER_1, PORT_NUMBER_2, PORT_NUMBER_3,
      PIN_NUMBER_31]
  · simp [pad_entry]

/-! ## Port 0 of the pad functions -/

/-- C11. Port 0 is a silent no-op for the pad operations: for every hardware
state, every `pin_no ≤ 31` and every function byte, `PINPAD_Config (0, pin_no,
function)` returns `DRIVER_OK` with all register memory unchanged, and for every
non-null output location `PINPAD_read (0, pin_no, out)` returns `DRIVER_OK`
with all register memory unchanged and the output location still holding the
value the caller put there. -/
theorem PINPAD_port_0_noop (hw : Hw) (pin_no function old : Nat) (hpin : pin_no ≤ 31) :
    PINPAD_Config hw 0 pin_no function = some ⟨DRIVER_OK, hw⟩ ∧
    PINPAD_read hw 0 pin_no (some old) = some ⟨DRIVER_OK, hw, some old⟩ := by
  have h31 : ¬ 31 < pin_no := by omega
  constructor
  · simp [PINPAD_Config, PORT_NUMBER_4, PORT_NUMBER_1, PORT_NUMBER_2, PORT_NUMBER_3,
      PIN_NUMBER_31, h31]
  · simp [PINPAD_read, PORT_NUMBER_4, PORT_NUMBER_1, PORT_NUMBER_2, PORT_NUMBER_3,
      PIN_NUMBER_31, h31]

theorem PINPAD_port_0_noop_witness :
    (31 : Nat) ≤ 31 ∧
    PINPAD_Config hw_ones 0 31 0xA5 = some ⟨DRIVER_OK, hw_ones⟩ ∧
    PINPAD_read hw_ones 0 31 (some 0x12345678) = some ⟨DRIVER_OK, hw_ones, some 0x12345678⟩ :=
  ⟨by decide, PINPAD_port_0_noop hw_ones 31 0xA5 0x12345678 (by decide)⟩

/-! ## Reads have no side effect -/

/-- `PINMUX_read` called again on its own result (same arguments, the hardware
and the output location as the first call left them) gives that result. -/
theorem PINMUX_read_again (base : Nat) (hw : Hw) (port pin_no : Nat) (out : Option Nat) :
    (PINMUX_read base hw port pin_no out).hw = hw ∧
    PINMUX_read base (PINMUX_read base hw port pin_no out).hw port pin_no
        (PINMUX_read base hw port pin_no out).out
      = PINMUX_read base hw port pin_no out := by
  by_cases h1 : port > PORT_NUMBER_3
  · simp [PINMUX_read, h1]
  by_cases h2 : pin_no > PIN_NUMBER_31
  · simp [PINMUX_read, h1, h2]
  cases out with
  | none => simp [PINMUX_read, h1, h2]
  | some x => simp [PINMUX_read, h1, h2]

/-- `PINPAD_read` called again on its own result (same arguments, the hardware
and the output location as the first call left them) gives that result. -/
theorem PINPAD_read_again (hw : Hw) (port pin_no : Nat) (out : Option Nat) :
    ∃ r, PINPAD_read hw port pin_no out = some r ∧ r.hw = hw ∧
      PINPAD_read r.hw port pin_no r.out = some r := by
  by_cases h1 : port > 4
  · exact ⟨⟨DRIVER_ERROR, hw, out⟩, by simp [PINPAD_read, PORT_NUMBER_4, h1], rfl,
      by simp [PINPAD_read, PORT_NUMBER_4, h1]⟩
  by_cases h2 : pin_no > 31
  · exact ⟨⟨DRIVER_ERROR, hw, out⟩, by simp [PINPAD_read, PORT_NUMBER_4, PIN_NUMBER_31, h1, h2],
      rfl, by simp [PINPAD_read, PORT_NUMBER_4, PIN_NUMBER_31, h1, h2]⟩
  cases out with
  | none =>
    exact ⟨⟨DRIVER_ERROR, hw, none⟩, by simp [PINPAD_read, PORT_NUMBER_4, PIN_NUMBER_31, h1, h2],
      rfl, by simp [PINPAD_read, PORT_NUMBER_4, PIN_NUMBER_31, h1, h2]⟩
  | some old =>
    have hport : port = 0 ∨ port = 1 ∨ port = 2 ∨ port = 3 ∨ port = 4 := by omega
    rcases hport with h | h | h | h | h <;> subst h
    · have h0 : ∀ x, PINPAD_read hw 0 pin_no (some x) = some ⟨DRIVER_OK, hw, some x⟩ := by
        intro x
        simp [PINPAD_read, PORT_NUMBER_4, PORT_NUMBER_1, PORT_NUMBER_2, PORT_NUMBER_3,
          PIN_NUMBER_31, h2]
      exact ⟨_, h0 old, rfl, h0 old⟩
    · exact ⟨_, PINPAD_read_port_1 hw pin_no old (by omega), rfl,
        PINPAD_read_port_1 hw pin_no _ (by omega)⟩
    · exact ⟨_, PINPAD_read_port_2 hw pin_no old (by omega), rfl,
        PINPAD_read_port_2 hw pin_no _ (by omega)⟩
    · by_cases h3 : pin_no ≥ 24
      · have h0 : PINPAD_read hw 3 pin_no (some old) = some ⟨DRIVER_ERROR, hw, some old⟩ := by
          simp [PINPAD_read, PORT_NUMBER_4, PORT_NUMBER_1, PORT_NUMBER_2, PORT_NUMBER_3,
            PIN_NUMBER_31, PORT3_MAX_PIN_NUMBER, h2, h3]
        exact ⟨_, h0, rfl, h0⟩
      · exact ⟨_, PINPAD_read_port_3 hw pin_no old (by omega), rfl,
          PINPAD_read_port_3 hw pin_no _ (by omega)⟩
    · by_cases h3 : pin_no ≥ 8
      · have h0 : PINPAD_read hw 4 pin_no (some old) = some ⟨DRIVER_ERROR, hw, some old⟩ := by
          simp [PINPAD_read, PORT_NUMBER_4, PORT_NUMBER_1, PORT_NUMBER_2, PORT_NUMBER_3,
            PIN_NUMBER_31, PORT4_MAX_PIN_NUMBER, h2, h3]
        exact ⟨_, h0, rfl, h0⟩
      · exact ⟨_, PINPAD_read_port_4 hw pin_no old (by omega), rfl,
          PINPAD_read_port_4 hw pin_no _ (by omega)⟩

/-- On a pointer that is `NULL` or outside the register memory
`PINMUX_read_mem` is `PINMUX_read`. -/
theorem PINMUX_read_mem_ofOption (base : Nat) (hw : Hw) (port pin_no : Nat) (o : Option Nat) :
    PINMUX_read_mem base hw port pin_no (OutPtr.ofOption o)
      = (PINMUX_read base hw port pin_no o).toMem := by
  by_cases h1 : port > PORT_NUMBER_3
  · simp [PINMUX_read_mem, PINMUX_read, ReadResult.toMem, h1]
  by_cases h2 : pin_no > PIN_NUMBER_31
  · simp [PINMUX_read_mem, PINMUX_read, ReadResult.toMem, h1, h2]
  cases o with
  | none => simp [PINMUX_read_mem, PINMUX_read, ReadResult.toMem, OutPtr.ofOption, h1, h2]
  | some x =>
    simp [PINMUX_read_mem, PINMUX_read, ReadResult.toMem, OutPtr.ofOption, OutPtr.store, h1, h2]

/-- On a pointer that is `NULL` or outside the register memory
`PINPAD_read_mem` is `PINPAD_read`. -/
theorem PINPAD_read_mem_ofOption (hw : Hw) (port pin_no : Nat) (o : Option Nat) :
    PINPAD_read_mem hw port pin_no (OutPtr.ofOption o)
      = (PINPAD_read hw port pin_no o).map ReadResult.toMem := by
  by_cases h1 : port > PORT_NUMBER_4
  · simp [PINPAD_read_mem, PINPAD_read, ReadResult.toMem, h1]
  by_cases h2 : pin_no > PIN_NUMBER_31
  · simp [PINPAD_read_mem, PINPAD_read, ReadResult.toMem, h1, h2]
  cases o with
  | none => simp [PINPAD_read_mem, PINPAD_read, ReadResult.toMem, OutPtr.ofOption, h1, h2]
  | some x =>
    simp only [PINPAD_read_mem, PINPAD_read, OutPtr.ofOption, OutPtr.store, h1, h2, if_false,
      reduceCtorEq]
    split_ifs <;> simp [ReadResult.toMem, OutPtr.ofOption, Option.map_map, Function.comp_def]

theorem OutPtr.eq_ofOption (ptr : OutPtr) (h : ptr.in_registers = false) :
    ∃ o, ptr = OutPtr.ofOption o := by
  cases ptr with
  | null => exact ⟨none, rfl⟩
  | reg a => simp [OutPtr.in_registers] at h
  | ext x => exact ⟨some x, rfl⟩

/-- C12 (counterexample). With the output pointer at the multiplex register of
port 0, pins 0..7 (address `0x1010` for `PINMUX_BASE = 0x1000`), which holds
`0xFFFFFFFF`, `PINMUX_read (0, 1, ptr)` succeeds and leaves 15 in that register,
so the register memory is not what it was; the same call a second time leaves 0
there, a different value; and `PINPAD_read (1, 0, ptr)` leaves `0xFF` in it. -/
theorem reads_through_register_pointer_change_memory :
    hw_ones.mux 0x1010 = 0xFFFFFFFF ∧
    (PINMUX_read_mem 0x1000 hw_ones 0 1 (OutPtr.reg 0x1010)).status = DRIVER_OK ∧
    (PINMUX_read_mem 0x1000 hw_ones 0 1 (OutPtr.reg 0x1010)).hw.mux 0x1010 = 15 ∧
    (PINMUX_read_mem 0x1000 hw_ones 0 1 (OutPtr.reg 0x1010)).hw ≠ hw_ones ∧
    OutPtr.content (PINMUX_read_mem 0x1000 hw_ones 0 1 (OutPtr.reg 0x1010)).hw
      (PINMUX_read_mem 0x1000 hw_ones 0 1 (OutPtr.reg 0x1010)).out = some 15 ∧
    (PINMUX_read_mem 0x1000 (PINMUX_read_mem 0x1000 hw_ones 0 1 (OutPtr.reg 0x1010)).hw 0 1
      (PINMUX_read_mem 0x1000 hw_ones 0 1 (OutPtr.reg 0x1010)).out).status = DRIVER_OK ∧
    OutPtr.content
      (PINMUX_read_mem 0x1000 (PINMUX_read_mem 0x1000 hw_ones 0 1 (OutPtr.reg 0x1010)).hw 0 1
        (PINMUX_read_mem 0x1000 hw_ones 0 1 (OutPtr.reg 0x1010)).out).hw
      (PINMUX_read_mem 0x1000 (PINMUX_read_mem 0x1000 hw_ones 0 1 (OutPtr.reg 0x1010)).hw 0 1
        (PINMUX_read_mem 0x1000 hw_ones 0 1 (OutPtr.reg 0x1010)).out).out = some 0 ∧
    (PINPAD_read_mem hw_ones 1 0 (OutPtr.reg 0x1010)).map (fun r => (r.status, r.hw.mux 0x1010))
      = some (DRIVER_OK, 0xFF) := by
  refine ⟨by decide, by decide, by decide, ?_, by decide, by decide, by decide, by decide⟩
  intro h
  have h2 : (PINMUX_read_mem 0x1000 hw_ones 0 1 (OutPtr.reg 0x1010)).hw.mux 0x1010
      = hw_ones.mux 0x1010 := by rw [h]
  revert h2
  decide

/-- C12 (amended). Reads are side-effect free and idempotent whenever the output
pointer is `NULL` or points outside the register memory: for every register
memory and every `port` and `pin_no`, valid or not, `PINMUX_read` and
`PINPAD_read` return with the multiplex and pad register memory exactly as it
was, and the same read called a second time with the same arguments returns the
same status and leaves the same value in the output location. -/
theorem reads_outside_registers_have_no_side_effect (PINMUX_BASE : Nat) (hw : Hw)
    (port pin_no : Nat) (ptr : OutPtr) (hout : ptr.in_registers = false) :
    ((PINMUX_read_mem PINMUX_BASE hw port pin_no ptr).hw = hw ∧
      (PINMUX_read_mem PINMUX_BASE (PINMUX_read_mem PINMUX_BASE hw port pin_no ptr).hw port
          pin_no (PINMUX_read_mem PINMUX_BASE hw port pin_no ptr).out).status
        = (PINMUX_read_mem PINMUX_BASE hw port pin_no ptr).status ∧
      (PINMUX_read_mem PINMUX_BASE (PINMUX_read_mem PINMUX_BASE hw port pin_no ptr).hw port
          pin_no (PINMUX_read_mem PINMUX_BASE hw port pin_no ptr).out).out
        = (PINMUX_read_mem PINMUX_BASE hw port pin_no ptr).out) ∧
    (∃ r1 r2, PINPAD_read_mem hw port pin_no ptr = some r1 ∧ r1.hw = hw ∧
      PINPAD_read_mem r1.hw port pin_no r1.out = some r2 ∧ r2.hw = hw ∧
      r2.status = r1.status ∧ r2.out = r1.out) := by
  obtain ⟨o, rfl⟩ := OutPtr.eq_ofOption ptr hout
  constructor
  · obtain ⟨h1, h2⟩ := PINMUX_read_again PINMUX_BASE hw port pin_no o
    rw [PINMUX_read_mem_ofOption]
    simp only [ReadResult.toMem]
    rw [PINMUX_read_mem_ofOption, h2]
    exact ⟨h1, rfl, rfl⟩
  · obtain ⟨r, hr, hhw, hagain⟩ := PINPAD_read_again hw port pin_no o
    refine ⟨r.toMem, r.toMem, ?_, hhw, ?_, hhw, rfl, rfl⟩
    · rw [PINPAD_read_mem_ofOption, hr]; rfl
    · simp only [ReadResult.toMem]
      rw [PINPAD_read_mem_ofOption, hagain]; rfl

theorem reads_outside_registers_have_no_side_effect_witness :
    (OutPtr.ext 9).in_registers = false ∧
    ((PINMUX_read_mem 0x1000 hw_ones 3 31 (OutPtr.ext 9)).hw = hw_ones ∧
      (PINMUX_read_mem 0x1000 (PINMUX_read_mem 0x1000 hw_ones 3 31 (OutPtr.ext 9)).hw 3
          31 (PINMUX_read_mem 0x1000 hw_ones 3 31 (OutPtr.ext 9)).out).status
        = (PINMUX_read_mem 0x1000 hw_ones 3 31 (OutPtr.ext 9)).status ∧
      (PINMUX_read_mem 0x1000 (PINMUX_read_mem 0x1000 hw_ones 3 31 (OutPtr.ext 9)).hw 3
          31 (PINMUX_read_mem 0x1000 hw_ones 3 31 (OutPtr.ext 9)).out).out
        = (PINMUX_read_mem 0x1000 hw_ones 3 31 (OutPtr.ext 9)).out) :=
  ⟨by decide,
    (reads_outside_registers_have_no_side_effect 0x1000 hw_ones 3 31 (OutPtr.ext 9)
      (by decide)).1⟩

/-! ## Bank indexing -/

/-- C16. Pad indexing is always in bounds: indexing a bank of `n` entries fails
exactly for an index `≥ n`, and for every hardware state, `port`, `pin_no`,
function byte and output location `PINPAD_Config` and `PINPAD_read` return a
result, so no bank (32 entries for `port_1` and `port_2`, 24 for `port_3`, 8 for
`port_4`) is ever indexed outside its range. -/
theorem PINPAD_indexing_in_bounds (hw : Hw) (port pin_no function : Nat) (out : Option Nat) :
    (∀ (n : Nat) (b : Bank n) (i v : Nat),
      (b.read i = none ↔ n ≤ i) ∧ (b.write i v = none ↔ n ≤ i)) ∧
    (PINPAD_Config hw port pin_no function).isSome = true ∧
    (PINPAD_read hw port pin_no out).isSome = true := by
  refine ⟨?_, ?_, ?_⟩
  · intro n b i v
    constructor
    · unfold Bank.read
      split_ifs with h
      · simp; omega
      · simp; omega
    · unfold Bank.write
      split_ifs with h
      · simp; omega
      · simp; omega
  · obtain ⟨c, hc, -⟩ := PINPAD_Config_total hw port pin_no function
    rw [hc]; rfl
  · obtain ⟨r, hr, -⟩ := PINPAD_read_total hw port pin_no out
    rw [hr]; rfl

/-! ## The register written by `PINMUX_Config` -/

/-- The clear mask written as a subtraction from the all-ones word. -/
theorem clear_mask_sub (k : Nat) (hk : k ≤ 7) :
    (2 ^ 32 - 1) ^^^ (15 <<< (k * 4)) = 0xFFFFFFFF - (0xF <<< (k * 4)) := by
  interval_cases k <;> decide

theorem clear_mask_lt (k : Nat) (hk : k ≤ 7) : (2 ^ 32 - 1) ^^^ (15 <<< (k * 4)) < 2 ^ 32 := by
  interval_cases k <;> decide

theorem field_value_lt (v k : Nat) (hv : v ≤ 7) (hk : k ≤ 7) : v <<< (k * 4) < 2 ^ 32 := by
  interval_cases k <;> interval_cases v <;> decide

/-- Bits of the word outside field `k` (and below bit 32) survive the rewrite
of field `k`. -/
theorem field_outside_bits (r v k i : Nat) (hv : v ≤ 7) (hi : i < 32)
    (hout : i < k * 4 ∨ k * 4 + 4 ≤ i) :
    ((r &&& ((2 ^ 32 - 1) ^^^ (15 <<< (k * 4)))) ||| (v <<< (k * 4))).testBit i
      = r.testBit i := by
  rw [Nat.testBit_or, Nat.testBit_and, testBit_clear_mask, Nat.testBit_shiftLeft]
  by_cases hle : k * 4 ≤ i
  · have h1 : ¬ (i - k * 4 < 4) := by omega
    simp [hi, hle, h1, testBit_of_le_seven v _ hv h1]
  · simp [hi, hle]

/-- C13. `PINMUX_Config` changes only the selected 4-bit field: for every
register memory, `p ≤ 3`, `n ≤ 31` and `v ≤ 7`, with `off = (n mod 8)*4` and
`r` the old value of the governing register, the new value of that register is
`(r AND NOT (0xF << off)) OR (v << off)`, a 32-bit value; its bits below 32
outside `[off+3:off]` are those of `r` (also when `off = 28`), the field holds
`v`, and every other multiplex register and the whole pad region are
unchanged. -/
theorem PINMUX_Config_changes_only_field (PINMUX_BASE : Nat) (hw : Hw) (p n v : Nat)
    (hp : p ≤ 3) (hn : n ≤ 31) (hv : v ≤ 7) :
    (PINMUX_Config PINMUX_BASE hw p n v).hw.mux (PINMUX_BASE + (p * 16 + 16) + 4 * (n / 8))
      = ((hw.mux (PINMUX_BASE + (p * 16 + 16) + 4 * (n / 8))
            &&& (0xFFFFFFFF - (0xF <<< ((n % 8) * 4)))) ||| (v <<< ((n % 8) * 4))) % 2 ^ 32 ∧
    (PINMUX_Config PINMUX_BASE hw p n v).hw.mux (PINMUX_BASE + (p * 16 + 16) + 4 * (n / 8))
      = (hw.mux (PINMUX_BASE + (p * 16 + 16) + 4 * (n / 8))
            &&& (0xFFFFFFFF - (0xF <<< ((n % 8) * 4)))) ||| (v <<< ((n % 8) * 4)) ∧
    (∀ i, i < 32 → (i < (n % 8) * 4 ∨ (n % 8) * 4 + 4 ≤ i) →
      ((PINMUX_Config PINMUX_BASE hw p n v).hw.mux
          (PINMUX_BASE + (p * 16 + 16) + 4 * (n / 8))).testBit i
        = (hw.mux (PINMUX_BASE + (p * 16 + 16) + 4 * (n / 8))).testBit i) ∧
    ((PINMUX_Config PINMUX_BASE hw p n v).hw.mux (PINMUX_BASE + (p * 16 + 16) + 4 * (n / 8))
        >>> ((n % 8) * 4)) &&& 0xF = v ∧
    (∀ a, a ≠ PINMUX_BASE + (p * 16 + 16) + 4 * (n / 8) →
      (PINMUX_Config PINMUX_BASE hw p n v).hw.mux a = hw.mux a) ∧
    (PINMUX_Config PINMUX_BASE hw p n v).hw.pad = hw.pad := by
  have hk : n % 8 ≤ 7 := by omega
  rw [PINMUX_Config_valid _ hw p n v hp hn hv]
  simp only [Hw.store, Function.update_same]
  refine ⟨?_, ?_, ?_, ?_, ?_, trivial⟩
  · rw [← clear_mask_sub _ hk]
    exact (Nat.mod_eq_of_lt (Nat.or_lt_two_pow (Nat.and_lt_two_pow _ (clear_mask_lt _ hk))
      (field_value_lt v _ hv hk))).symm
  · rw [← clear_mask_sub _ hk]
  · intro i hi hout
    exact field_outside_bits _ v _ i hv hi hout
  · exact field_roundtrip _ v _ hv hk
  · intro a ha
    exact Function.update_noteq ha _ _

theorem PINMUX_Config_changes_only_field_witness :
    (3 : Nat) ≤ 3 ∧ (31 : Nat) ≤ 31 ∧ (2 : Nat) ≤ 7 ∧
    (PINMUX_Config 0x1000 hw_ones 3 31 2).hw.mux (0x1000 + (3 * 16 + 16) + 4 * (31 / 8))
      = (hw_ones.mux (0x1000 + (3 * 16 + 16) + 4 * (31 / 8))
            &&& (0xFFFFFFFF - (0xF <<< ((31 % 8) * 4)))) ||| (2 <<< ((31 % 8) * 4)) :=
  ⟨by decide, by decide, by decide,
    (PINMUX_Config_changes_only_field 0x1000 hw_ones 3 31 2
      (by decide) (by decide) (by decide)).2.1⟩

/-! ## The value delivered by `PINMUX_read` -/

theorem ones_field (k : Nat) (hk : k ≤ 7) : (0xFFFFFFFF >>> (k * 4)) &&& 0xF = 15 := by
  interval_cases k <;> decide

/-- C14. `PINMUX_read` extracts the field by shift and mask: for every register
memory, `p ≤ 3`, `n ≤ 31` and a non-null output, the value stored is
`(r >> ((n mod 8)*4)) AND 0xF` with `r` the current value of the governing
register, that is `(r div 2^((n mod 8)*4)) mod 16`; it is at most 15, and it
exceeds 7 on a register that was not set through `PINMUX_Config` (all bits
set: the value read is 15). -/
theorem PINMUX_read_extracts_field (PINMUX_BASE : Nat) (hw : Hw) (p n old : Nat)
    (hp : p ≤ 3) (hn : n ≤ 31) :
    (PINMUX_read PINMUX_BASE hw p n (some old)).out
      = some ((hw.mux (PINMUX_BASE + (p * 16 + 16) + 4 * (n / 8)) >>> ((n % 8) * 4)) &&& 0xF) ∧
    (hw.mux (PINMUX_BASE + (p * 16 + 16) + 4 * (n / 8)) >>> ((n % 8) * 4)) &&& 0xF
      = (hw.mux (PINMUX_BASE + (p * 16 + 16) + 4 * (n / 8)) / 2 ^ ((n % 8) * 4)) % 16 ∧
    (hw.mux (PINMUX_BASE + (p * 16 + 16) + 4 * (n / 8)) >>> ((n % 8) * 4)) &&& 0xF ≤ 15 ∧
    (PINMUX_read PINMUX_BASE hw_ones p n (some old)).out = some 15 := by
  have hk : n % 8 ≤ 7 := by omega
  have h15 : (0xF : Nat) = 2 ^ 4 - 1 := by norm_num
  have hmod : ∀ x : Nat, x &&& 0xF = x % 16 := by
    intro x
    rw [h15, Nat.and_pow_two_sub_one_eq_mod]
  refine ⟨?_, ?_, ?_, ?_⟩
  · rw [PINMUX_read_valid _ hw p n old hp hn]
  · rw [hmod, Nat.shiftRight_eq_div_pow]
  · rw [hmod]; omega
  · rw [PINMUX_read_valid _ hw_ones p n old hp hn]
    simp only [hw_ones]
    rw [ones_field _ hk]

theorem PINMUX_read_extracts_field_witness :
    (0 : Nat) ≤ 3 ∧ (7 : Nat) ≤ 31 ∧
    (PINMUX_read 0x1000 hw_ones 0 7 (some 0)).out = some 15 :=
  ⟨by decide, by decide,
    (PINMUX_read_extracts_field 0x1000 hw_zero 0 7 0 (by decide) (by decide)).2.2.2⟩

/-! ## The coordinate mapping -/

/-- C17. The multiplex coordinate mapping is injective and stays inside the
4-port region: for `p, p' ≤ 3` and `n, n' ≤ 31` the pair (register address, bit
offset) selected for `(p, n)` equals that of `(p', n')` only if `p = p'` and
`n = n'`; the register byte offset from `PINMUX_BASE` is a multiple of 4 in
`[16, 76]`, the bit offset is a multiple of 4 in `[0, 28]`, and the 8-bit
computation `port*16 + 16` does not wrap (it is at most 64).  The same holds
for the selection made by `PINMUX_read`. -/
theorem PINMUX_select_injective (PINMUX_BASE p n p' n' : Nat)
    (hp : p ≤ 3) (hn : n ≤ 31) (hp' : p' ≤ 3) (hn' : n' ≤ 31) :
    (PINMUX_Config_select PINMUX_BASE p n = PINMUX_Config_select PINMUX_BASE p' n'
      → p = p' ∧ n = n') ∧
    (PINMUX_read_select PINMUX_BASE p n = PINMUX_read_select PINMUX_BASE p' n'
      → p = p' ∧ n = n') ∧
    PINMUX_read_select PINMUX_BASE p n = PINMUX_Config_select PINMUX_BASE p n ∧
    (PINMUX_BASE ≤ (PINMUX_Config_select PINMUX_BASE p n).1 ∧
      ((PINMUX_Config_select PINMUX_BASE p n).1 - PINMUX_BASE) % 4 = 0 ∧
      16 ≤ (PINMUX_Config_select PINMUX_BASE p n).1 - PINMUX_BASE ∧
      (PINMUX_Config_select PINMUX_BASE p n).1 - PINMUX_BASE ≤ 76) ∧
    ((PINMUX_Config_select PINMUX_BASE p n).2 % 4 = 0 ∧
      (PINMUX_Config_select PINMUX_BASE p n).2 ≤ 28 ∧
      (PINMUX_Config_select PINMUX_BASE p n).2 < 32) ∧
    ((p * 16 + 16) % 256 = p * 16 + 16 ∧ p * 16 + 16 ≤ 64) := by
  rw [PINMUX_Config_select_eq _ p n hp hn, PINMUX_Config_select_eq _ p' n' hp' hn',
    PINMUX_read_select_eq _ p n hp hn, PINMUX_read_select_eq _ p' n' hp' hn']
  simp only [mux_address_rule, Prod.mk.injEq]
  refine ⟨?_, ?_, trivial, ?_, ?_, ?_⟩
  · rintro ⟨h1, h2⟩; omega
  · rintro ⟨h1, h2⟩; omega
  · omega
  · omega
  · omega

theorem PINMUX_select_injective_witness :
    (3 : Nat) ≤ 3 ∧ (31 : Nat) ≤ 31 ∧ (0 : Nat) ≤ 3 ∧ (0 : Nat) ≤ 31 ∧
    ((PINMUX_Config_select 0x1000 3 31).1 - 0x1000 ≤ 76 ∧
      (PINMUX_Config_select 0x1000 3 31).2 ≤ 28) :=
  ⟨by decide, by decide, by decide, by decide,
    (PINMUX_select_injective 0x1000 3 31 0 0
      (by decide) (by decide) (by decide) (by decide)).2.2.2.1.2.2.2,
    (PINMUX_select_injective 0x1000 3 31 0 0
      (by decide) (by decide) (by decide) (by decide)).2.2.2.2.1.2.1⟩

/-! ## Rewriting fields of one word -/

/-- A set bit of `v << (k*4)` for a selector `v ≤ 7` lies inside field `k`. -/
theorem field_value_bit (v k i : Nat) (hv : v ≤ 7)
    (h : (v <<< (k * 4)).testBit i = true) : k * 4 ≤ i ∧ i - k * 4 < 4 := by
  rw [Nat.testBit_shiftLeft] at h
  simp only [Bool.and_eq_true, decide_eq_true_eq, ge_iff_le] at h
  refine ⟨h.1, ?_⟩
  by_contra hlt
  rw [testBit_of_le_seven v _ hv hlt] at h
  exact Bool.false_ne_true h.2

/-- Rewriting the same field twice keeps the second selector only. -/
theorem field_overwrite (r v w k : Nat) (hv : v ≤ 7) (hk : k ≤ 7) :
    (((r &&& ((2 ^ 32 - 1) ^^^ (15 <<< (k * 4)))) ||| (v <<< (k * 4)))
        &&& ((2 ^ 32 - 1) ^^^ (15 <<< (k * 4)))) ||| (w <<< (k * 4))
      = (r &&& ((2 ^ 32 - 1) ^^^ (15 <<< (k * 4)))) ||| (w <<< (k * 4)) := by
  apply Nat.eq_of_testBit_eq
  intro i
  simp only [Nat.testBit_or, Nat.testBit_and, testBit_clear_mask]
  have hvb := field_value_bit v k i hv
  cases hb : (v <<< (k * 4)).testBit i with
  | false => simp
  | true =>
    obtain ⟨h1, h2⟩ := hvb hb
    have h32 : i < 32 := by omega
    simp [h1, h2, h32]

/-- Rewriting two different fields of a word gives the same word in either
order. -/
theorem field_commute (r v w k j : Nat) (hv : v ≤ 7) (hw : w ≤ 7) (hk : k ≤ 7) (hj : j ≤ 7)
    (hne : k ≠ j) :
    (((r &&& ((2 ^ 32 - 1) ^^^ (15 <<< (k * 4)))) ||| (v <<< (k * 4)))
        &&& ((2 ^ 32 - 1) ^^^ (15 <<< (j * 4)))) ||| (w <<< (j * 4))
      = (((r &&& ((2 ^ 32 - 1) ^^^ (15 <<< (j * 4)))) ||| (w <<< (j * 4)))
        &&& ((2 ^ 32 - 1) ^^^ (15 <<< (k * 4)))) ||| (v <<< (k * 4)) := by
  apply Nat.eq_of_testBit_eq
  intro i
  simp only [Nat.testBit_or, Nat.testBit_and, testBit_clear_mask]
  have hvb := field_value_bit v k i hv
  have hwb := field_value_bit w j i hw
  by_cases hA : k * 4 ≤ i ∧ i - k * 4 < 4
  · have hwf : (w <<< (j * 4)).testBit i = false := by
      cases hb : (w <<< (j * 4)).testBit i with
      | false => rfl
      | true => have := hwb hb; omega
    have hB : ¬ (j * 4 ≤ i ∧ i - j * 4 < 4) := by omega
    have hB' : (decide (j * 4 ≤ i) && decide (i - j * 4 < 4)) = false := by
      simpa using hB
    have hA' : (decide (k * 4 ≤ i) && decide (i - k * 4 < 4)) = true := by
      simpa using hA
    have h32 : decide (i < 32) = true := by
      simp only [decide_eq_true_eq]; omega
    rw [hwf, hB', hA', h32]
    cases (r.testBit i) <;> cases ((v <<< (k * 4)).testBit i) <;> rfl
  · have hvf : (v <<< (k * 4)).testBit i = false := by
      cases hb : (v <<< (k * 4)).testBit i with
      | false => rfl
      | true => exact absurd (hvb hb) hA
    have hA' : (decide (k * 4 ≤ i) && decide (i - k * 4 < 4)) = false := by
      simpa using hA
    rw [hvf, hA']
    by_cases hB : j * 4 ≤ i ∧ i - j * 4 < 4
    · have hB' : (decide (j * 4 ≤ i) && decide (i - j * 4 < 4)) = true := by
        simpa using hB
      have h32 : decide (i < 32) = true := by
        simp only [decide_eq_true_eq]; omega
      rw [hB', h32]
      cases (r.testBit i) <;> cases ((w <<< (j * 4)).testBit i) <;> rfl
    · have hwf : (w <<< (j * 4)).testBit i = false := by
        cases hb : (w <<< (j * 4)).testBit i with
        | false => rfl
        | true => exact absurd (hwb hb) hB
      have hB' : (decide (j * 4 ≤ i) && decide (i - j * 4 < 4)) = false := by
        simpa using hB
      rw [hwf, hB']

/-! ## Independence of the multiplex coordinates -/

/-- C18. Configuring one pin never changes what any other pin reads back: for
every register memory, valid coordinates `(p, n)` and `(p', n')` that differ
and selectors `v, v' ≤ 7`, `PINMUX_read (p', n')` returns the same status and
stores the same value after `PINMUX_Config (p, n, v)` as before it; and the two
calls `PINMUX_Config (p, n, v)` and `PINMUX_Config (p', n', v')` yield the same
register memory in either order. -/
theorem PINMUX_Config_other_pins_unaffected (PINMUX_BASE : Nat) (hw : Hw)
    (p n p' n' v v' old : Nat) (hp : p ≤ 3) (hn : n ≤ 31) (hp' : p' ≤ 3) (hn' : n' ≤ 31)
    (hv : v ≤ 7) (hv' : v' ≤ 7) (hne : ¬ (p = p' ∧ n = n')) :
    (PINMUX_read PINMUX_BASE (PINMUX_Config PINMUX_BASE hw p n v).hw p' n' (some old)).out
      = (PINMUX_read PINMUX_BASE hw p' n' (some old)).out ∧
    (PINMUX_read PINMUX_BASE (PINMUX_Config PINMUX_BASE hw p n v).hw p' n' (some old)).status
      = (PINMUX_read PINMUX_BASE hw p' n' (some old)).status ∧
    (PINMUX_Config PINMUX_BASE (PINMUX_Config PINMUX_BASE hw p n v).hw p' n' v').hw
      = (PINMUX_Config PINMUX_BASE (PINMUX_Config PINMUX_BASE hw p' n' v').hw p n v).hw := by
  have hk : n % 8 ≤ 7 := by omega
  have hk' : n' % 8 ≤ 7 := by omega
  simp only [PINMUX_read_valid _ _ _ _ _ hp' hn', PINMUX_Config_valid _ _ _ _ _ hp hn hv,
    PINMUX_Config_valid _ _ _ _ _ hp' hn' hv', Hw.store, and_true]
  by_cases haddr : PINMUX_BASE + (p' * 16 + 16) + 4 * (n' / 8)
      = PINMUX_BASE + (p * 16 + 16) + 4 * (n / 8)
  · have hfield : n' % 8 ≠ n % 8 := by omega
    rw [haddr]
    simp only [Function.update_same, Function.update_idem]
    refine ⟨?_, trivial, ?_⟩
    · rw [field_frame _ v (n % 8) (n' % 8) hv hk' hfield]
    · rw [field_commute _ v v' (n % 8) (n' % 8) hv hv' hk hk' (Ne.symm hfield)]
  · have haddr2 : PINMUX_BASE + (p * 16 + 16) + 4 * (n / 8)
        ≠ PINMUX_BASE + (p' * 16 + 16) + 4 * (n' / 8) := fun h => haddr h.symm
    simp only [Function.update_noteq haddr, Function.update_noteq haddr2, true_and]
    rw [Function.update_comm haddr]

theorem PINMUX_Config_other_pins_unaffected_witness :
    (1 : Nat) ≤ 3 ∧ (9 : Nat) ≤ 31 ∧ (1 : Nat) ≤ 3 ∧ (15 : Nat) ≤ 31 ∧ (5 : Nat) ≤ 7 ∧
    (3 : Nat) ≤ 7 ∧ ¬ ((1 : Nat) = 1 ∧ (9 : Nat) = 15) ∧
    (PINMUX_read 0x1000 (PINMUX_Config 0x1000 hw_ones 1 9 5).hw 1 15 (some 0)).out
      = (PINMUX_read 0x1000 hw_ones 1 15 (some 0)).out :=
  ⟨by decide, by decide, by decide, by decide, by decide, by decide, by decide,
    (PINMUX_Config_other_pins_unaffected 0x1000 hw_ones 1 9 1 15 5 3 0 (by decide) (by decide)
      (by decide) (by decide) (by decide) (by decide) (by decide)).1⟩

/-- C19. `PINMUX_Config` is last-write-wins and idempotent: for every register
memory, `p ≤ 3`, `n ≤ 31` and selectors `v1, v2 ≤ 7`, the register memory after
`PINMUX_Config (p, n, v1)` followed by `PINMUX_Config (p, n, v2)` equals the
memory after `PINMUX_Config (p, n, v2)` alone; applying the same configuration
twice equals applying it once, and the field then holds `v2` with no bit of
`v1` left in it. -/
theorem PINMUX_Config_last_write_wins (PINMUX_BASE : Nat) (hw : Hw) (p n v1 v2 : Nat)
    (hp : p ≤ 3) (hn : n ≤ 31) (hv1 : v1 ≤ 7) (hv2 : v2 ≤ 7) :
    (PINMUX_Config PINMUX_BASE (PINMUX_Config PINMUX_BASE hw p n v1).hw p n v2).hw
      = (PINMUX_Config PINMUX_BASE hw p n v2).hw ∧
    (PINMUX_Config PINMUX_BASE (PINMUX_Config PINMUX_BASE hw p n v2).hw p n v2).hw
      = (PINMUX_Config PINMUX_BASE hw p n v2).hw ∧
    ((PINMUX_Config PINMUX_BASE (PINMUX_Config PINMUX_BASE hw p n v1).hw p n v2).hw.mux
        (PINMUX_BASE + (p * 16 + 16) + 4 * (n / 8)) >>> ((n % 8) * 4)) &&& 0xF = v2 := by
  have hk : n % 8 ≤ 7 := by omega
  have key : ∀ w, w ≤ 7 →
      (PINMUX_Config PINMUX_BASE (PINMUX_Config PINMUX_BASE hw p n w).hw p n v2).hw
        = (PINMUX_Config PINMUX_BASE hw p n v2).hw := by
    intro w hw7
    simp only [PINMUX_Config_valid _ _ _ _ _ hp hn hv2, PINMUX_Config_valid _ _ _ _ _ hp hn hw7,
      Hw.store, Function.update_same, Function.update_idem]
    rw [field_overwrite _ w v2 (n % 8) hw7 hk]
  refine ⟨key v1 hv1, key v2 hv2, ?_⟩
  rw [key v1 hv1, PINMUX_Config_valid _ hw p n v2 hp hn hv2]
  simp only [Hw.store, Function.update_same]
  exact field_roundtrip _ v2 _ hv2 hk

theorem PINMUX_Config_last_write_wins_witness :
    (3 : Nat) ≤ 3 ∧ (31 : Nat) ≤ 31 ∧ (7 : Nat) ≤ 7 ∧ (0 : Nat) ≤ 7 ∧
    ((PINMUX_Config 0x1000 (PINMUX_Config 0x1000 hw_zero 3 31 7).hw 3 31 0).hw.mux
        (0x1000 + (3 * 16 + 16) + 4 * (31 / 8)) >>> ((31 % 8) * 4)) &&& 0xF = 0 :=
  ⟨by decide, by decide, by decide, by decide,
    (PINMUX_Config_last_write_wins 0x1000 hw_zero 3 31 7 0
      (by decide) (by decide) (by decide) (by decide)).2.2⟩

/-! ## The entry written by `PINPAD_Config` -/

theorem Bank.read_update_ne {n : Nat} (b : Bank n) (i j v : Nat) (h : i < n) (hne : j ≠ i) :
    Bank.read (Function.update b ⟨i, h⟩ v) j = Bank.read b j := by
  unfold Bank.read
  split_ifs with hj
  · have hfin : (⟨j, hj⟩ : Fin n) ≠ ⟨i, h⟩ := by
      intro heq
      exact hne (congrArg Fin.val heq)
    rw [Function.update_noteq hfin]
  · rfl

/-- On a supported coordinate `PINPAD_Config` stores into the entry of that
coordinate and leaves every other pad entry and the multiplex registers as
they were. -/
theorem PINPAD_Config_frame (hw : Hw) (port pin_no f : Nat) (hs : pad_supported port pin_no) :
    ∃ c, PINPAD_Config hw port pin_no f = some c ∧ c.status = DRIVER_OK ∧
      pad_entry c.hw port pin_no = some f ∧ c.hw.mux = hw.mux ∧
      ∀ port' pin', ¬ (port' = port ∧ pin' = pin_no) →
        pad_entry c.hw port' pin' = pad_entry hw port' pin' := by
  rcases hs with ⟨h | h, hpin⟩ | ⟨h, hpin⟩ | ⟨h, hpin⟩ <;> subst h
  · refine ⟨_, PINPAD_Config_port_1 hw pin_no f (by omega), rfl,
      by simp [pad_entry, Bank.read_write], rfl, ?_⟩
    intro port' pin' hne
    by_cases hp : port' = 1
    · subst hp
      have hpin' : pin' ≠ pin_no := fun h => hne ⟨rfl, h⟩
      simp only [pad_entry, if_true]
      exact Bank.read_update_ne _ _ _ _ _ hpin'
    · simp only [pad_entry, if_neg hp]
  · refine ⟨_, PINPAD_Config_port_2 hw pin_no f (by omega), rfl,
      by simp [pad_entry, Bank.read_write], rfl, ?_⟩
    intro port' pin' hne
    by_cases hp : port' = 2
    · subst hp
      have hpin' : pin' ≠ pin_no := fun h => hne ⟨rfl, h⟩
      simp only [pad_entry, if_true]
      simpa using Bank.read_update_ne _ _ _ _ _ hpin'
    · simp only [pad_entry, if_neg hp]
  · refine ⟨_, PINPAD_Config_port_3 hw pin_no f (by omega), rfl,
      by simp [pad_entry, Bank.read_write], rfl, ?_⟩
    intro port' pin' hne
    by_cases hp : port' = 3
    · subst hp
      have hpin' : pin' ≠ pin_no := fun h => hne ⟨rfl, h⟩
      simp only [pad_entry, if_true]
      simpa using Bank.read_update_ne _ _ _ _ _ hpin'
    · simp only [pad_entry, if_neg hp]
  · refine ⟨_, PINPAD_Config_port_4 hw pin_no f (by omega), rfl,
      by simp [pad_entry, Bank.read_write], rfl, ?_⟩
    intro port' pin' hne
    by_cases hp : port' = 4
    · subst hp
      have hpin' : pin' ≠ pin_no := fun h => hne ⟨rfl, h⟩
      simp only [pad_entry, if_true]
      simpa using Bank.read_update_ne _ _ _ _ _ hpin'
    · simp only [pad_entry, if_neg hp]

/-- C15. `PINPAD_Config` writes only the selected pin's entry: for every pad
memory, every supported coordinate `(port, pin_no)` and every byte `f`, the call
succeeds and afterwards the entry of `(port, pin_no)` holds `f` whatever it held
before, the multiplex registers are unchanged, and `PINPAD_read` of every other
supported coordinate succeeds with the same value as before the call. -/
theorem PINPAD_Config_writes_only_entry (hw : Hw) (port pin_no f : Nat)
    (hs : pad_supported port pin_no) (_hf : f ≤ 255) :
    ∃ c, PINPAD_Config hw port pin_no f = some c ∧ c.status = DRIVER_OK ∧
      pad_entry c.hw port pin_no = some f ∧ c.hw.mux = hw.mux ∧
      ∀ port' pin' old, pad_supported port' pin' → ¬ (port' = port ∧ pin' = pin_no) →
        ∃ x, PINPAD_read hw port' pin' (some old) = some ⟨DRIVER_OK, hw, some x⟩ ∧
          PINPAD_read c.hw port' pin' (some old) = some ⟨DRIVER_OK, c.hw, some x⟩ := by
  obtain ⟨c, hc, hst, hent, hmux, hframe⟩ := PINPAD_Config_frame hw port pin_no f hs
  refine ⟨c, hc, hst, hent, hmux, ?_⟩
  intro port' pin' old hs' hne
  obtain ⟨x, hx, hr⟩ := PINPAD_read_supported hw port' pin' old hs'
  obtain ⟨y, hy, hr'⟩ := PINPAD_read_supported c.hw port' pin' old hs'
  rw [hframe port' pin' hne, hx] at hy
  cases hy
  exact ⟨x, hr, hr'⟩

theorem PINPAD_Config_writes_only_entry_witness :
    pad_supported 4 7 ∧ (0 : Nat) ≤ 255 ∧
    ∃ c, PINPAD_Config hw_ones 4 7 0 = some c ∧ c.status = DRIVER_OK ∧
      pad_entry c.hw 4 7 = some 0 ∧ c.hw.mux = hw_ones.mux :=
  ⟨by decide, by decide,
    (PINPAD_Config_writes_only_entry hw_ones 4 7 0 (by decide) (by decide)).elim
      fun c h => ⟨c, h.1, h.2.1, h.2.2.1, h.2.2.2.1⟩⟩

end PinCtl
